import Mathlib

/-!
Verification development for the `tsubabindgen` rust-extractor
(`packages/tsubabindgen/rust-extractor/src/main.rs`).

The Rust program walks a crate's module tree, classifies each public item,
and emits a deterministic JSON description.  This file gives a shallow
embedding of that program: the `syn` syntax-tree fragments the extractor
consumes are modelled as inductive types, `&mut Vec<SkipIssue>` out-parameters
are modelled by returning the list of pushed issues (callers append them in
push order), the filesystem is an explicit association list of canonical
paths to parsed files, and the recursive module walk carries an explicit
fuel argument (every recursive call consumes one unit; the real program's
recursion is bounded by the finite filesystem, so any large enough fuel
reproduces it).  `Vec::sort_by`, a stable sort, is modelled with
`List.insertionSort`, which is stable for the reflexive comparators used.
-/

namespace RustExtractor

/-- Output record: a diagnostic for a construct the schema cannot express
(`struct SkipIssue` in the source). -/
structure SkipIssue where
  file : String
  kind : String
  snippet : String
  reason : String
deriving Repr, DecidableEq

/-- Output record: a named, typed slot (`struct ExtractField`). -/
structure ExtractField where
  name : String
  type_text : String
deriving Repr, DecidableEq

/-- Output record: a function or method signature (`struct ExtractFunction`). -/
structure ExtractFunction where
  name : String
  type_params : List String
  params : List ExtractField
  return_type : String
deriving Repr, DecidableEq

/-- Output record: a struct (`struct ExtractStruct`). -/
structure ExtractStruct where
  name : String
  type_params : List String
  fields : List ExtractField
deriving Repr, DecidableEq

/-- Output record: an enum (`struct ExtractEnum`). -/
structure ExtractEnum where
  name : String
  type_params : List String
  variants : List String
deriving Repr, DecidableEq

/-- Output record: a trait (`struct ExtractTrait`). -/
structure ExtractTrait where
  name : String
  type_params : List String
  super_traits : List String
  methods : List ExtractFunction
deriving Repr, DecidableEq

/-- Output record: one inherent-impl block's public methods
(`struct PendingMethods`). -/
structure PendingMethods where
  target : String
  methods : List ExtractFunction
deriving Repr, DecidableEq

/-- Output record: one module (`struct ExtractModule`). -/
structure ExtractModule where
  file : String
  parts : List String
  consts : List ExtractField
  enums : List ExtractEnum
  structs : List ExtractStruct
  traits : List ExtractTrait
  functions : List ExtractFunction
  pending_methods : List PendingMethods
  issues : List SkipIssue
deriving Repr, DecidableEq

/-! ### The `syn` syntax-tree fragments the extractor consumes -/

/-- `syn::Visibility`: the extractor only distinguishes `Visibility::Public`
from everything else (`pub(crate)`/restricted and inherited visibility). -/
inductive Visibility where
  | publicVis
  | restrictedVis
  | inheritedVis
deriving Repr, DecidableEq

/-- `syn::Type`, as far as the extractor inspects it: a plain path type
(with the identifiers of its segments) or anything else, carried as its
token text. -/
inductive Ty where
  | path (segments : List String)
  | otherTy (text : String)
deriving Repr, DecidableEq

/-- `syn::GenericParam`: a type parameter (its identifier), a lifetime
parameter, or a const parameter (each carried as its token text). -/
inductive GenericParam where
  | typeParam (ident : String)
  | lifetimeParam (snippet : String)
  | constParam (snippet : String)
deriving Repr, DecidableEq

/-- `syn::Pat`, as far as the extractor inspects it: a plain identifier
pattern or anything else (carried as its token text). -/
inductive Pat where
  | identPat (name : String)
  | otherPat (snippet : String)
deriving Repr, DecidableEq

/-- `syn::FnArg`: a receiver (`self`, with or without `&` and `mut`) or a
typed argument. -/
inductive FnArg where
  | receiver (hasRef : Bool) (hasMut : Bool)
  | typed (pat : Pat) (ty : Ty)
deriving Repr, DecidableEq

/-- `syn::ReturnType`. -/
inductive ReturnTy where
  | default
  | ty (t : Ty)
deriving Repr, DecidableEq

/-- `syn::Signature`, as far as the extractor reads it. -/
structure Signature where
  ident : String
  generics : List GenericParam
  inputs : List FnArg
  output : ReturnTy
deriving Repr, DecidableEq

/-- `syn::Field` of a named-field list. -/
structure FieldDef where
  vis : Visibility
  ident : Option String
  ty : Ty
deriving Repr, DecidableEq

/-- `syn::Fields`: named, unnamed (tuple-style), or unit.  The extractor
never reads into an unnamed field list, so its payload is not modelled. -/
inductive FieldsKind where
  | named (fields : List FieldDef)
  | unnamed
  | unit
deriving Repr, DecidableEq

/-- `syn::Variant`: an enum variant. -/
structure Variant where
  ident : String
  fields : FieldsKind
deriving Repr, DecidableEq

/-- `syn::TraitItem`, as far as the extractor reads it. -/
inductive TraitItemK where
  | fnItem (sig : Signature)
  | typeItem (ident : String)
  | otherItem (snippet : String)
deriving Repr, DecidableEq

/-- `syn::ImplItem`, as far as the extractor reads it. -/
inductive ImplItemK where
  | fnImpl (vis : Visibility) (sig : Signature)
  | otherImpl
deriving Repr, DecidableEq

/-- The pieces of `syn::ItemImpl` the extractor reads: whether a trait is
being implemented, the self type, and the member items. -/
structure ItemImplData where
  isTraitImpl : Bool
  selfTy : Ty
  items : List ImplItemK
deriving Repr, DecidableEq

/-- `syn::Item`, as far as the extractor reads it.  `modItem` carries
`none` for `mod m;` (external file) and `some items` for an inline body. -/
inductive Item where
  | modItem (vis : Visibility) (ident : String) (content : Option (List Item))
  | constItem (vis : Visibility) (ident : String) (ty : Ty)
  | fnItem (vis : Visibility) (sig : Signature)
  | structItem (vis : Visibility) (ident : String) (generics : List GenericParam)
      (fields : FieldsKind)
  | enumItem (vis : Visibility) (ident : String) (generics : List GenericParam)
      (variants : List Variant)
  | traitItem (vis : Visibility) (ident : String) (generics : List GenericParam)
      (supertraits : List String) (items : List TraitItemK)
  | implItem (d : ItemImplData)
  | macroItem (hasExport : Bool) (ident : Option String) (snippet : String)
  | otherItem
deriving Repr

/-! ### Leaf helpers (`macro_stub`, `is_public`, the renderer) -/

/-- `macro_stub`: the synthetic function record for an exported macro. -/
def macroStub (name : String) : ExtractFunction :=
  { name := name
    type_params := []
    params := [{ name := "tokens", type_text := "Tokens" }]
    return_type := "Tokens" }

/-- `is_public`: only `Visibility::Public` counts. -/
def isPublic : Visibility → Bool
  | .publicVis => true
  | .restrictedVis => false
  | .inheritedVis => false

/-- The whitespace-separated tokens of a character list (the accumulator
holds the current token, reversed).  This is `str::split_whitespace`:
maximal runs of non-whitespace characters, in order. -/
def wsTokens : List Char → List Char → List String
  | [], acc => if acc.isEmpty then [] else [String.mk acc.reverse]
  | c :: rest, acc =>
      if c.isWhitespace then
        if acc.isEmpty then wsTokens rest []
        else String.mk acc.reverse :: wsTokens rest []
      else wsTokens rest (c :: acc)

/-- `normalize_ws`: split on whitespace and re-join with single spaces. -/
def normalizeWs (text : String) : String :=
  String.intercalate " " (wsTokens text.toList [])

/-- `type_to_string`: the token text of a type, whitespace-normalized.
A path type's token stream prints its segments separated by `::`. -/
def typeToString (t : Ty) : String :=
  match t with
  | .path segments => normalizeWs (String.intercalate " :: " segments)
  | .otherTy text => normalizeWs text

/-- `return_type_to_string`: a missing annotation canonicalizes to `()`. -/
def returnTypeToString : ReturnTy → String
  | .default => "()"
  | .ty t => typeToString t

/-! ### The Signature Extractor (`parse_type_params`, `parse_signature`) -/

/-- The Issue pushed for a lifetime generic parameter. -/
def lifetimeGenericIssue (file ownerKind ownerName snippet : String) : SkipIssue :=
  { file := file
    kind := "generic"
    snippet := snippet
    reason := ownerKind ++ " " ++ ownerName ++
      " lifetime generic parameters are not representable in TS facades and were skipped." }

/-- The Issue pushed for a const generic parameter. -/
def constGenericIssue (file ownerKind ownerName snippet : String) : SkipIssue :=
  { file := file
    kind := "generic"
    snippet := snippet
    reason := ownerKind ++ " " ++ ownerName ++
      " const generic parameters are not representable in TS facades and were skipped." }

/-- `parse_type_params`: keep type parameters in order; push one `generic`
Issue per lifetime or const parameter.  Returns the kept names and the
pushed issues, in push order. -/
def parseTypeParams (file ownerKind ownerName : String) :
    List GenericParam → List String × List SkipIssue
  | [] => ([], [])
  | .typeParam id :: rest =>
      let r := parseTypeParams file ownerKind ownerName rest
      (id :: r.1, r.2)
  | .lifetimeParam s :: rest =>
      let r := parseTypeParams file ownerKind ownerName rest
      (r.1, lifetimeGenericIssue file ownerKind ownerName s :: r.2)
  | .constParam s :: rest =>
      let r := parseTypeParams file ownerKind ownerName rest
      (r.1, constGenericIssue file ownerKind ownerName s :: r.2)

/-- The Issue pushed for a non-identifier parameter pattern. -/
def paramIssue (file snippet : String) : SkipIssue :=
  { file := file
    kind := "param"
    snippet := snippet
    reason := "Non-identifier function parameters are not representable in TS facades and were replaced by an unsupported name." }

/-- The parameter loop of `parse_signature`: receivers become sentinel
entries, identifier patterns keep their name, any other pattern is replaced
by the sentinel name `unsupported` with one `param` Issue. -/
def parseSignatureInputs (file : String) : List FnArg → List ExtractField × List SkipIssue
  | [] => ([], [])
  | .receiver hasRef hasMut :: rest =>
      let name := if hasRef && hasMut then "&mut self" else if hasRef then "&self" else "self"
      let r := parseSignatureInputs file rest
      ({ name := name, type_text := "self" } :: r.1, r.2)
  | .typed pat ty :: rest =>
      let (name, d) :=
        match pat with
        | .identPat n => (n, ([] : List SkipIssue))
        | .otherPat s => ("unsupported", [paramIssue file s])
      let r := parseSignatureInputs file rest
      ({ name := name, type_text := typeToString ty } :: r.1, d ++ r.2)

/-- `parse_signature`. -/
def parseSignature (sig : Signature) (file : String) : ExtractFunction × List SkipIssue :=
  let tp := parseTypeParams file "Function" sig.ident sig.generics
  let ps := parseSignatureInputs file sig.inputs
  ({ name := sig.ident
     type_params := tp.1
     params := ps.1
     return_type := returnTypeToString sig.output }, tp.2 ++ ps.2)

/-- `parse_const`. -/
def parseConst (ident : String) (ty : Ty) : ExtractField :=
  { name := ident, type_text := typeToString ty }

/-! ### Struct / enum / trait / impl extraction -/

/-- The named-field loop of `parse_struct`: keep public fields with an
identifier, in declaration order. -/
def namedFields : List FieldDef → List ExtractField
  | [] => []
  | f :: rest =>
      if isPublic f.vis then
        match f.ident with
        | some n => { name := n, type_text := typeToString f.ty } :: namedFields rest
        | none => namedFields rest
      else namedFields rest

/-- The Issue pushed for a tuple-style struct. -/
def structIssue (file ident : String) : SkipIssue :=
  { file := file
    kind := "struct"
    snippet := ident
    reason := "Tuple structs are not representable as TS class fields and were emitted without fields." }

/-- `parse_struct`. -/
def parseStruct (ident : String) (generics : List GenericParam) (fields : FieldsKind)
    (file : String) : ExtractStruct × List SkipIssue :=
  let tp := parseTypeParams file "Struct" ident generics
  let fr : List ExtractField × List SkipIssue :=
    match fields with
    | .named fl => (namedFields fl, [])
    | .unnamed => ([], [structIssue file ident])
    | .unit => ([], [])
  ({ name := ident, type_params := tp.1, fields := fr.1 }, tp.2 ++ fr.2)

/-- The Issue pushed for a payload-carrying enum variant. -/
def enumIssue (file variantIdent : String) : SkipIssue :=
  { file := file
    kind := "enum"
    snippet := variantIdent
    reason := "Enum variants with payload fields are currently represented as unit variants in TS facades." }

/-- The variant loop of `parse_enum`: every variant contributes its name;
non-unit variants additionally push one `enum` Issue. -/
def enumVariants (file : String) : List Variant → List String × List SkipIssue
  | [] => ([], [])
  | v :: rest =>
      let d : List SkipIssue :=
        match v.fields with
        | .unit => []
        | _ => [enumIssue file v.ident]
      let r := enumVariants file rest
      (v.ident :: r.1, d ++ r.2)

/-- `parse_enum`. -/
def parseEnum (ident : String) (generics : List GenericParam) (variants : List Variant)
    (file : String) : ExtractEnum × List SkipIssue :=
  let tp := parseTypeParams file "Enum" ident generics
  let vr := enumVariants file variants
  ({ name := ident, type_params := tp.1, variants := vr.1 }, tp.2 ++ vr.2)

/-- The Issue pushed for an unsupported trait member. -/
def traitMemberIssue (file snippet : String) : SkipIssue :=
  { file := file
    kind := "trait"
    snippet := snippet
    reason := "Unsupported trait member kind was skipped." }

/-- The member loop of `parse_trait`: methods are extracted, associated
types extend the type-parameter accumulator when absent, anything else
pushes one `trait` Issue. -/
def traitLoop (file : String) (items : List TraitItemK) (tps : List String) :
    List String × List ExtractFunction × List SkipIssue :=
  match items with
  | [] => (tps, [], [])
  | .fnItem sig :: rest =>
      let fd := parseSignature sig file
      let r := traitLoop file rest tps
      (r.1, fd.1 :: r.2.1, fd.2 ++ r.2.2)
  | .typeItem a :: rest =>
      let tps1 := if a ∈ tps then tps else tps ++ [a]
      traitLoop file rest tps1
  | .otherItem s :: rest =>
      let r := traitLoop file rest tps
      (r.1, r.2.1, traitMemberIssue file s :: r.2.2)

/-- `parse_trait`. -/
def parseTrait (ident : String) (generics : List GenericParam) (supertraits : List String)
    (items : List TraitItemK) (file : String) : ExtractTrait × List SkipIssue :=
  let tp := parseTypeParams file "Trait" ident generics
  let r := traitLoop file items tp.1
  ({ name := ident
     type_params := r.1
     super_traits := supertraits.map normalizeWs
     methods := r.2.1 }, tp.2 ++ r.2.2)

/-- The Issue pushed for a non-nominal impl target. -/
def implTargetIssue (file snippet : String) : SkipIssue :=
  { file := file
    kind := "impl"
    snippet := snippet
    reason := "Unsupported impl target (expected a nominal path type)." }

/-- The member loop of `parse_impl`: keep public methods via the Signature
Extractor; everything else is ignored. -/
def implMethods (file : String) : List ImplItemK → List ExtractFunction × List SkipIssue
  | [] => ([], [])
  | .fnImpl vis sig :: rest =>
      if isPublic vis then
        let fd := parseSignature sig file
        let r := implMethods file rest
        (fd.1 :: r.1, fd.2 ++ r.2)
      else implMethods file rest
  | .otherImpl :: rest => implMethods file rest

/-- `parse_impl`: trait impls contribute nothing; a non-nominal self type
pushes one `impl` Issue and skips the block; an eligible block with at
least one public method becomes one `PendingMethods` entry. -/
def parseImpl (d : ItemImplData) (file : String) : Option PendingMethods × List SkipIssue :=
  if d.isTraitImpl then (none, [])
  else
    let target? : Option String :=
      match d.selfTy with
      | .path segments => segments.getLast?
      | _ => none
    match target? with
    | none => (none, [implTargetIssue file (typeToString d.selfTy)])
    | some target =>
        let mr := implMethods file d.items
        if mr.1.isEmpty then (none, mr.2)
        else (some { target := target, methods := mr.1 }, mr.2)

/-- The Issue pushed for an exported macro without a stable name. -/
def macroNameIssue (file snippet : String) : SkipIssue :=
  { file := file
    kind := "macro"
    snippet := snippet
    reason := "Encountered an exported macro without a stable name." }

/-! ### Filesystem model and path helpers

A filesystem path is its list of components.  `FS.entries` maps each
canonical path to the parsed items of the file stored there; `FS.aliases`
maps further (non-canonical) spellings to their canonical path.
`fs::canonicalize` succeeds exactly on paths that denote a stored file. -/

/-- A filesystem path, as its list of components. -/
abbrev FsPath := List String

/-- The string form of a canonical path (`Path::to_string_lossy`). -/
def pathToString (p : FsPath) : String :=
  String.intercalate "/" p

/-- Association-list lookup over paths. -/
def findEntry {A : Type} : List (FsPath × A) → FsPath → Option A
  | [], _ => none
  | e :: rest, p => if e.1 = p then some e.2 else findEntry rest p

/-- The filesystem a run works against. -/
structure FS where
  entries : List (FsPath × List Item)
  aliases : List (FsPath × FsPath)

/-- `fs::canonicalize`: a stored path is its own canonical form; an alias
resolves to its target when that target is stored; anything else fails. -/
def FS.canon (fs : FS) (p : FsPath) : Option FsPath :=
  match findEntry fs.entries p with
  | some _ => some p
  | none =>
      match findEntry fs.aliases p with
      | some c =>
          match findEntry fs.entries c with
          | some _ => some c
          | none => none
      | none => none

/-- `Path::exists`: a path exists when it canonicalizes. -/
def FS.pathExists (fs : FS) (p : FsPath) : Bool :=
  (fs.canon p).isSome

/-- Well-formedness of the modelled filesystem: distinct stored files have
distinct string forms (true of any real directory tree, where the string
form determines the path). -/
def FS.Wf (fs : FS) : Prop :=
  (fs.entries.map (fun e => pathToString e.1)).Nodup

/-- `resolve_child_module_file`: try the sibling file `<name>.rs`, then the
subdirectory file `<name>/mod.rs`; the first match wins; otherwise fail. -/
def resolveChildModuleFile (fs : FS) (baseDir : FsPath) (moduleName : String) :
    Except String FsPath :=
  let direct := baseDir ++ [moduleName ++ ".rs"]
  if fs.pathExists direct then .ok direct
  else
    let nested := baseDir ++ [moduleName, "mod.rs"]
    if fs.pathExists nested then .ok nested
    else .error ("Could not resolve pub mod " ++ moduleName ++ " from base directory " ++
      pathToString baseDir ++ ".")

/-- `Path::file_stem`: the file name up to its last dot (the whole name
when there is no dot, or when the only dot is a leading one). -/
def fileStem (name : String) : String :=
  let rev := name.toList.reverse
  match rev.dropWhile (fun c => c ≠ '.') with
  | [] => name
  | _ :: pre =>
      match pre.reverse with
      | [] => name
      | stem => String.mk stem

/-- `module_base_dir_for_file`: a root/module-root file resolves its
children in its own directory, any other file in the subdirectory named
after its stem. -/
def moduleBaseDirForFile (filePath : FsPath) : FsPath :=
  let parent := filePath.dropLast
  let name := (filePath.getLast?).getD ""
  if name = "mod.rs" || name = "lib.rs" || name = "main.rs" then parent
  else parent ++ [fileStem name]

/-- The empty module record the item loop starts from. -/
def emptyModule (fileLabel : String) (parts : List String) : ExtractModule :=
  { file := fileLabel
    parts := parts
    consts := []
    enums := []
    structs := []
    traits := []
    functions := []
    pending_methods := []
    issues := [] }

/-- The comparator `collect_module_items` sorts pending-method groups by:
target name order (stated as `¬ b < a`, which is `a.target ≤ b.target`). -/
def PendLE (a b : PendingMethods) : Prop :=
  ¬ b.target < a.target

/-- A kernel-computable decision procedure for the string order (the
library instance decides via iterators, which the kernel cannot reduce). -/
def strLtDec (a b : String) : Decidable (a < b) :=
  decidable_of_iff (a.toList < b.toList) String.lt_iff_toList_lt.symm

instance : DecidableRel PendLE := fun a b =>
  @instDecidableNot _ (strLtDec b.target a.target)

theorem PendLE_iff (a b : PendingMethods) : PendLE a b ↔ a.target ≤ b.target :=
  not_lt

instance : IsTotal PendingMethods PendLE :=
  ⟨fun a b => by
    rw [PendLE_iff, PendLE_iff]
    exact le_total a.target b.target⟩

instance : IsTrans PendingMethods PendLE :=
  ⟨fun a b c h h' => by
    rw [PendLE_iff] at h h' ⊢
    exact le_trans h h'⟩

/-- The post-processing `collect_module_items` applies to the finished
record: sort the pending-method groups by target (the source guards the
sort behind a non-emptiness test). -/
def sortPendingMethods (m : ExtractModule) : ExtractModule :=
  if m.pending_methods.isEmpty then m
  else { m with pending_methods := m.pending_methods.insertionSort PendLE }

/-! ### The Module Tree Walker

`collect_module_items` / `collect_module_file`, with explicit fuel.  The
`for` loop of `collect_module_items` is `collectItemsGo`, threading the
module record under construction, the output list and the visited set;
`collect_module_items` then sorts the pending-method groups and pushes the
finished record. -/

mutual

/-- The item loop of `collect_module_items`. -/
def collectItemsGo (fs : FS) (fuel : Nat) (fileLabel : String) (parts : List String)
    (baseDir : FsPath) (items : List Item) (module : ExtractModule)
    (out : List ExtractModule) (seen : List FsPath) :
    Except String (ExtractModule × List ExtractModule × List FsPath) :=
  match fuel with
  | 0 => .error "recursion budget exhausted"
  | fuel + 1 =>
    match items with
    | [] => .ok (module, out, seen)
    | item :: rest =>
      match item with
      | .modItem vis ident content =>
          if isPublic vis then
            let childParts := parts ++ [ident]
            match content with
            | some inlineItems =>
                match collectModuleItems fs fuel fileLabel childParts (baseDir ++ [ident])
                    inlineItems out seen with
                | .error e => .error e
                | .ok (out', seen') =>
                    collectItemsGo fs fuel fileLabel parts baseDir rest module out' seen'
            | none =>
                match resolveChildModuleFile fs baseDir ident with
                | .error e => .error e
                | .ok childFile =>
                    match collectModuleFile fs fuel childFile childParts out seen with
                    | .error e => .error e
                    | .ok (out', seen') =>
                        collectItemsGo fs fuel fileLabel parts baseDir rest module out' seen'
          else collectItemsGo fs fuel fileLabel parts baseDir rest module out seen
      | .constItem vis ident ty =>
          if isPublic vis then
            collectItemsGo fs fuel fileLabel parts baseDir rest
              { module with consts := module.consts ++ [parseConst ident ty] } out seen
          else collectItemsGo fs fuel fileLabel parts baseDir rest module out seen
      | .fnItem vis sig =>
          if isPublic vis then
            let fd := parseSignature sig fileLabel
            collectItemsGo fs fuel fileLabel parts baseDir rest
              { module with
                  functions := module.functions ++ [fd.1]
                  issues := module.issues ++ fd.2 } out seen
          else collectItemsGo fs fuel fileLabel parts baseDir rest module out seen
      | .structItem vis ident generics fields =>
          if isPublic vis then
            let sd := parseStruct ident generics fields fileLabel
            collectItemsGo fs fuel fileLabel parts baseDir rest
              { module with
                  structs := module.structs ++ [sd.1]
                  issues := module.issues ++ sd.2 } out seen
          else collectItemsGo fs fuel fileLabel parts baseDir rest module out seen
      | .enumItem vis ident generics variants =>
          if isPublic vis then
            let ed := parseEnum ident generics variants fileLabel
            collectItemsGo fs fuel fileLabel parts baseDir rest
              { module with
                  enums := module.enums ++ [ed.1]
                  issues := module.issues ++ ed.2 } out seen
          else collectItemsGo fs fuel fileLabel parts baseDir rest module out seen
      | .traitItem vis ident generics supertraits titems =>
          if isPublic vis then
            let td := parseTrait ident generics supertraits titems fileLabel
            collectItemsGo fs fuel fileLabel parts baseDir rest
              { module with
                  traits := module.traits ++ [td.1]
                  issues := module.issues ++ td.2 } out seen
          else collectItemsGo fs fuel fileLabel parts baseDir rest module out seen
      | .implItem d =>
          let pd := parseImpl d fileLabel
          let module' :=
            { module with
                pending_methods := module.pending_methods ++ pd.1.toList
                issues := module.issues ++ pd.2 }
          collectItemsGo fs fuel fileLabel parts baseDir rest module' out seen
      | .macroItem hasExport identOpt snippet =>
          if hasExport then
            match identOpt with
            | some n =>
                collectItemsGo fs fuel fileLabel parts baseDir rest
                  { module with functions := module.functions ++ [macroStub n] } out seen
            | none =>
                collectItemsGo fs fuel fileLabel parts baseDir rest
                  { module with issues := module.issues ++ [macroNameIssue fileLabel snippet] }
                  out seen
          else collectItemsGo fs fuel fileLabel parts baseDir rest module out seen
      | .otherItem => collectItemsGo fs fuel fileLabel parts baseDir rest module out seen

/-- `collect_module_items`: run the item loop from an empty record, sort
its pending-method groups by target, and push it. -/
def collectModuleItems (fs : FS) (fuel : Nat) (fileLabel : String) (parts : List String)
    (baseDir : FsPath) (items : List Item) (out : List ExtractModule)
    (seen : List FsPath) : Except String (List ExtractModule × List FsPath) :=
  match fuel with
  | 0 => .error "recursion budget exhausted"
  | fuel + 1 =>
    match collectItemsGo fs fuel fileLabel parts baseDir items (emptyModule fileLabel parts)
        out seen with
    | .error e => .error e
    | .ok (m, out', seen') =>
        .ok (out' ++ [sortPendingMethods m], seen')

/-- `collect_module_file`: canonicalize, short-circuit on a visited file,
record the file as visited, read its items, and collect them. -/
def collectModuleFile (fs : FS) (fuel : Nat) (filePath : FsPath) (parts : List String)
    (out : List ExtractModule) (seen : List FsPath) :
    Except String (List ExtractModule × List FsPath) :=
  match fuel with
  | 0 => .error "recursion budget exhausted"
  | fuel + 1 =>
    match fs.canon filePath with
    | none => .error ("Failed to canonicalize module path " ++ pathToString filePath)
    | some canonical =>
        if canonical ∈ seen then .ok (out, seen)
        else
          match findEntry fs.entries canonical with
          | none => .error ("Failed to read module file " ++ pathToString canonical)
          | some fileItems =>
              collectModuleItems fs fuel (pathToString canonical) parts
                (moduleBaseDirForFile canonical) fileItems out (canonical :: seen)

end

/-! ### The Output Assembler (`extract_modules`) -/

/-- The sort key of a module: the `::`-joined path segments (the root
module, with empty parts, keys as the empty string). -/
def moduleOrderKey (m : ExtractModule) : String :=
  if m.parts.isEmpty then "" else String.intercalate "::" m.parts

/-- The comparator `extract_modules` sorts by: segment-key order, file
identity as tie-break (file order stated as `¬ b.file < a.file`, which is
`a.file ≤ b.file`). -/
def ModLE (a b : ExtractModule) : Prop :=
  moduleOrderKey a < moduleOrderKey b ∨
    (moduleOrderKey a = moduleOrderKey b ∧ ¬ b.file < a.file)

instance : DecidableRel ModLE := fun a b =>
  @instDecidableOr _ _ (strLtDec (moduleOrderKey a) (moduleOrderKey b))
    (@instDecidableAnd _ _ (String.decEq (moduleOrderKey a) (moduleOrderKey b))
      (@instDecidableNot _ (strLtDec b.file a.file)))

theorem ModLE_iff (a b : ExtractModule) :
    ModLE a b ↔ moduleOrderKey a < moduleOrderKey b ∨
      (moduleOrderKey a = moduleOrderKey b ∧ a.file ≤ b.file) := by
  unfold ModLE
  rw [not_lt]

instance : IsTotal ExtractModule ModLE := by
  constructor
  intro a b
  rw [ModLE_iff, ModLE_iff]
  rcases lt_trichotomy (moduleOrderKey a) (moduleOrderKey b) with h | h | h
  · exact Or.inl (Or.inl h)
  · rcases le_total a.file b.file with h' | h'
    · exact Or.inl (Or.inr ⟨h, h'⟩)
    · exact Or.inr (Or.inr ⟨h.symm, h'⟩)
  · exact Or.inr (Or.inl h)

instance : IsTrans ExtractModule ModLE := by
  constructor
  intro a b c hab hbc
  rw [ModLE_iff] at hab hbc ⊢
  rcases hab with hab | ⟨hab, hab'⟩
  · rcases hbc with hbc | ⟨hbc, _⟩
    · exact Or.inl (lt_trans hab hbc)
    · exact Or.inl (hbc ▸ hab)
  · rcases hbc with hbc | ⟨hbc, hbc'⟩
    · exact Or.inl (hab ▸ hbc)
    · exact Or.inr ⟨hab.trans hbc, le_trans hab' hbc'⟩

/-- `extract_modules`: locate the crate root `src/lib.rs` under the
manifest's directory, walk it, and sort the collected modules. -/
def extractModules (fs : FS) (fuel : Nat) (manifestPath : FsPath) :
    Except String (List ExtractModule) :=
  match manifestPath with
  | [] => .error "Manifest path has no parent directory."
  | _ :: _ =>
    let crateRoot := manifestPath.dropLast
    let rootFile := crateRoot ++ ["src", "lib.rs"]
    if fs.pathExists rootFile then
      match collectModuleFile fs fuel rootFile [] [] [] with
      | .error e => .error e
      | .ok (modules, _) => .ok (modules.insertionSort ModLE)
    else .error ("Missing library root " ++ pathToString rootFile ++ " (expected src/lib.rs).")

/-! ### The pure module-record effect of the item loop -/

/-- The effect of the item loop on the module record under construction:
child-module recursion never touches it, every other arm appends to one of
its collections. -/
def buildGo (fileLabel : String) : List Item → ExtractModule → ExtractModule
  | [], module => module
  | item :: rest, module =>
    match item with
    | .modItem _ _ _ => buildGo fileLabel rest module
    | .constItem vis ident ty =>
        if isPublic vis then
          buildGo fileLabel rest
            { module with consts := module.consts ++ [parseConst ident ty] }
        else buildGo fileLabel rest module
    | .fnItem vis sig =>
        if isPublic vis then
          buildGo fileLabel rest
            { module with
                functions := module.functions ++ [(parseSignature sig fileLabel).1]
                issues := module.issues ++ (parseSignature sig fileLabel).2 }
        else buildGo fileLabel rest module
    | .structItem vis ident generics fields =>
        if isPublic vis then
          buildGo fileLabel rest
            { module with
                structs := module.structs ++ [(parseStruct ident generics fields fileLabel).1]
                issues := module.issues ++ (parseStruct ident generics fields fileLabel).2 }
        else buildGo fileLabel rest module
    | .enumItem vis ident generics variants =>
        if isPublic vis then
          buildGo fileLabel rest
            { module with
                enums := module.enums ++ [(parseEnum ident generics variants fileLabel).1]
                issues := module.issues ++ (parseEnum ident generics variants fileLabel).2 }
        else buildGo fileLabel rest module
    | .traitItem vis ident generics supertraits titems =>
        if isPublic vis then
          buildGo fileLabel rest
            { module with
                traits := module.traits ++
                  [(parseTrait ident generics supertraits titems fileLabel).1]
                issues := module.issues ++
                  (parseTrait ident generics supertraits titems fileLabel).2 }
        else buildGo fileLabel rest module
    | .implItem d =>
        buildGo fileLabel rest
          { module with
              pending_methods := module.pending_methods ++ (parseImpl d fileLabel).1.toList
              issues := module.issues ++ (parseImpl d fileLabel).2 }
    | .macroItem hasExport identOpt snippet =>
        if hasExport then
          match identOpt with
          | some n =>
              buildGo fileLabel rest
                { module with functions := module.functions ++ [macroStub n] }
          | none =>
              buildGo fileLabel rest
                { module with issues := module.issues ++ [macroNameIssue fileLabel snippet] }
        else buildGo fileLabel rest module
    | .otherItem => buildGo fileLabel rest module

/-- The item loop leaves `buildGo`'s value in the module component: the
child-module recursions only extend the output list and the visited set. -/
theorem collectItemsGo_module (fs : FS) :
    ∀ (fuel : Nat) (lbl : String) (parts : List String) (base : FsPath) (items : List Item)
      (module : ExtractModule) (out : List ExtractModule) (seen : List FsPath)
      (m' : ExtractModule) (out' : List ExtractModule) (seen' : List FsPath),
      collectItemsGo fs fuel lbl parts base items module out seen = .ok (m', out', seen') →
      m' = buildGo lbl items module := by
  intro fuel
  induction fuel with
  | zero =>
      intro lbl parts base items module out seen m' out' seen' h
      exact Except.noConfusion h
  | succ fuel ih =>
      intro lbl parts base items module out seen m' out' seen' h
      cases items with
      | nil =>
          have h' : Except.ok (ε := String) (module, out, seen) = .ok (m', out', seen') := h
          simp only [Except.ok.injEq, Prod.mk.injEq] at h'
          simpa [buildGo] using h'.1.symm
      | cons item rest =>
          cases item with
          | modItem vis ident content =>
              cases vis with
              | publicVis =>
                  cases content with
                  | some inlineItems =>
                      have h' :
                          (match collectModuleItems fs fuel lbl (parts ++ [ident])
                              (base ++ [ident]) inlineItems out seen with
                          | Except.error e => Except.error e
                          | Except.ok (out1, seen1) =>
                              collectItemsGo fs fuel lbl parts base rest module out1 seen1) =
                            Except.ok (m', out', seen') := h
                      cases hc : collectModuleItems fs fuel lbl (parts ++ [ident])
                          (base ++ [ident]) inlineItems out seen with
                      | error e => rw [hc] at h'; exact Except.noConfusion h'
                      | ok r =>
                          obtain ⟨out1, seen1⟩ := r
                          rw [hc] at h'
                          exact ih lbl parts base rest module out1 seen1 m' out' seen' h'
                  | none =>
                      have h' :
                          (match resolveChildModuleFile fs base ident with
                          | Except.error e =>
                              Except.error
                                (α := ExtractModule × List ExtractModule × List FsPath) e
                          | Except.ok childFile =>
                              match collectModuleFile fs fuel childFile (parts ++ [ident])
                                  out seen with
                              | Except.error e =>
                                  Except.error
                                    (α := ExtractModule × List ExtractModule × List FsPath) e
                              | Except.ok (out1, seen1) =>
                                  collectItemsGo fs fuel lbl parts base rest module out1
                                    seen1) =
                            Except.ok (m', out', seen') := h
                      cases hr : resolveChildModuleFile fs base ident with
                      | error e => rw [hr] at h'; exact Except.noConfusion h'
                      | ok childFile =>
                          rw [hr] at h'
                          have h'' :
                              (match collectModuleFile fs fuel childFile (parts ++ [ident])
                                  out seen with
                              | Except.error e =>
                                  Except.error
                                    (α := ExtractModule × List ExtractModule × List FsPath) e
                              | Except.ok (out1, seen1) =>
                                  collectItemsGo fs fuel lbl parts base rest module out1
                                    seen1) =
                                Except.ok (m', out', seen') := h'
                          cases hc : collectModuleFile fs fuel childFile (parts ++ [ident])
                              out seen with
                          | error e => rw [hc] at h''; exact Except.noConfusion h''
                          | ok r =>
                              obtain ⟨out1, seen1⟩ := r
                              rw [hc] at h''
                              exact ih lbl parts base rest module out1 seen1 m' out' seen' h''
              | restrictedVis => exact ih lbl parts base rest module out seen m' out' seen' h
              | inheritedVis => exact ih lbl parts base rest module out seen m' out' seen' h
          | constItem vis ident ty =>
              cases vis with
              | publicVis => exact ih lbl parts base rest _ out seen m' out' seen' h
              | restrictedVis => exact ih lbl parts base rest module out seen m' out' seen' h
              | inheritedVis => exact ih lbl parts base rest module out seen m' out' seen' h
          | fnItem vis sig =>
              cases vis with
              | publicVis => exact ih lbl parts base rest _ out seen m' out' seen' h
              | restrictedVis => exact ih lbl parts base rest module out seen m' out' seen' h
              | inheritedVis => exact ih lbl parts base rest module out seen m' out' seen' h
          | structItem vis ident generics fields =>
              cases vis with
              | publicVis => exact ih lbl parts base rest _ out seen m' out' seen' h
              | restrictedVis => exact ih lbl parts base rest module out seen m' out' seen' h
              | inheritedVis => exact ih lbl parts base rest module out seen m' out' seen' h
          | enumItem vis ident generics variants =>
              cases vis with
              | publicVis => exact ih lbl parts base rest _ out seen m' out' seen' h
              | restrictedVis => exact ih lbl parts base rest module out seen m' out' seen' h
              | inheritedVis => exact ih lbl parts base rest module out seen m' out' seen' h
          | traitItem vis ident generics supertraits titems =>
              cases vis with
              | publicVis => exact ih lbl parts base rest _ out seen m' out' seen' h
              | restrictedVis => exact ih lbl parts base rest module out seen m' out' seen' h
              | inheritedVis => exact ih lbl parts base rest module out seen m' out' seen' h
          | implItem d => exact ih lbl parts base rest _ out seen m' out' seen' h
          | macroItem hasExport identOpt snippet =>
              cases hasExport with
              | true =>
                  cases identOpt with
                  | some n => exact ih lbl parts base rest _ out seen m' out' seen' h
                  | none => exact ih lbl parts base rest _ out seen m' out' seen' h
              | false => exact ih lbl parts base rest module out seen m' out' seen' h
          | otherItem => exact ih lbl parts base rest module out seen m' out' seen' h

theorem exists_append_trans {α : Type} {a b c : List α} (h1 : ∃ n, b = a ++ n)
    (h2 : ∃ n, c = b ++ n) : ∃ n, c = a ++ n := by
  rcases h1 with ⟨n1, rfl⟩
  rcases h2 with ⟨n2, rfl⟩
  exact ⟨n1 ++ n2, by simp⟩

theorem exists_prepend_trans {α : Type} {a b c : List α} (h1 : ∃ p, b = p ++ a)
    (h2 : ∃ p, c = p ++ b) : ∃ p, c = p ++ a := by
  rcases h1 with ⟨p1, rfl⟩
  rcases h2 with ⟨p2, rfl⟩
  exact ⟨p2 ++ p1, by simp⟩

/-- The walk only appends to the output list and only extends the visited
set, in all three mutually recursive functions. -/
theorem walk_extends (fs : FS) : ∀ fuel : Nat,
    (∀ lbl parts base items module out seen m' out' seen',
      collectItemsGo fs fuel lbl parts base items module out seen = .ok (m', out', seen') →
      (∃ new, out' = out ++ new) ∧ (∃ pre, seen' = pre ++ seen)) ∧
    (∀ lbl parts base items out seen out' seen',
      collectModuleItems fs fuel lbl parts base items out seen = .ok (out', seen') →
      (∃ new, out' = out ++ new) ∧ (∃ pre, seen' = pre ++ seen)) ∧
    (∀ p parts out seen out' seen',
      collectModuleFile fs fuel p parts out seen = .ok (out', seen') →
      (∃ new, out' = out ++ new) ∧ (∃ pre, seen' = pre ++ seen)) := by
  intro fuel
  induction fuel with
  | zero =>
      refine ⟨?_, ?_, ?_⟩
      · intro lbl parts base items module out seen m' out' seen' h
        exact Except.noConfusion h
      · intro lbl parts base items out seen out' seen' h
        exact Except.noConfusion h
      · intro p parts out seen out' seen' h
        exact Except.noConfusion h
  | succ fuel ih =>
      obtain ⟨ihGo, ihItems, ihFile⟩ := ih
      refine ⟨?_, ?_, ?_⟩
      · intro lbl parts base items module out seen m' out' seen' h
        cases items with
        | nil =>
            have h' : Except.ok (ε := String) (module, out, seen) = .ok (m', out', seen') := h
            simp only [Except.ok.injEq, Prod.mk.injEq] at h'
            exact ⟨⟨[], by simp [h'.2.1]⟩, ⟨[], by simp [h'.2.2]⟩⟩
        | cons item rest =>
            cases item with
            | modItem vis ident content =>
                cases vis with
                | publicVis =>
                    cases content with
                    | some inlineItems =>
                        have h' :
                            (match collectModuleItems fs fuel lbl (parts ++ [ident])
                                (base ++ [ident]) inlineItems out seen with
                            | Except.error e =>
                                Except.error
                                  (α := ExtractModule × List ExtractModule × List FsPath) e
                            | Except.ok (out1, seen1) =>
                                collectItemsGo fs fuel lbl parts base rest module out1
                                  seen1) =
                              Except.ok (m', out', seen') := h
                        cases hc : collectModuleItems fs fuel lbl (parts ++ [ident])
                            (base ++ [ident]) inlineItems out seen with
                        | error e => rw [hc] at h'; exact Except.noConfusion h'
                        | ok r =>
                            obtain ⟨out1, seen1⟩ := r
                            rw [hc] at h'
                            have r1 := ihItems lbl (parts ++ [ident]) (base ++ [ident])
                              inlineItems out seen out1 seen1 hc
                            have r2 := ihGo lbl parts base rest module out1 seen1 m' out' seen' h'
                            exact ⟨exists_append_trans r1.1 r2.1,
                              exists_prepend_trans r1.2 r2.2⟩
                    | none =>
                        have h' :
                            (match resolveChildModuleFile fs base ident with
                            | Except.error e =>
                                Except.error
                                  (α := ExtractModule × List ExtractModule × List FsPath) e
                            | Except.ok childFile =>
                                match collectModuleFile fs fuel childFile (parts ++ [ident])
                                    out seen with
                                | Except.error e =>
                                    Except.error
                                      (α := ExtractModule × List ExtractModule × List FsPath)
                                      e
                                | Except.ok (out1, seen1) =>
                                    collectItemsGo fs fuel lbl parts base rest module out1
                                      seen1) =
                              Except.ok (m', out', seen') := h
                        cases hr : resolveChildModuleFile fs base ident with
                        | error e => rw [hr] at h'; exact Except.noConfusion h'
                        | ok childFile =>
                            rw [hr] at h'
                            have h'' :
                                (match collectModuleFile fs fuel childFile (parts ++ [ident])
                                    out seen with
                                | Except.error e =>
                                    Except.error
                                      (α := ExtractModule × List ExtractModule × List FsPath)
                                      e
                                | Except.ok (out1, seen1) =>
                                    collectItemsGo fs fuel lbl parts base rest module out1
                                      seen1) =
                                  Except.ok (m', out', seen') := h'
                            cases hc : collectModuleFile fs fuel childFile (parts ++ [ident])
                                out seen with
                            | error e => rw [hc] at h''; exact Except.noConfusion h''
                            | ok r =>
                                obtain ⟨out1, seen1⟩ := r
                                rw [hc] at h''
                                have r1 := ihFile childFile (parts ++ [ident]) out seen out1
                                  seen1 hc
                                have r2 := ihGo lbl parts base rest module out1 seen1 m' out' seen' h''
                                exact ⟨exists_append_trans r1.1 r2.1,
                                  exists_prepend_trans r1.2 r2.2⟩
                | restrictedVis => exact ihGo lbl parts base rest module out seen m' out' seen' h
                | inheritedVis => exact ihGo lbl parts base rest module out seen m' out' seen' h
            | constItem vis ident ty =>
                cases vis with
                | publicVis => exact ihGo lbl parts base rest _ out seen m' out' seen' h
                | restrictedVis => exact ihGo lbl parts base rest module out seen m' out' seen' h
                | inheritedVis => exact ihGo lbl parts base rest module out seen m' out' seen' h
            | fnItem vis sig =>
                cases vis with
                | publicVis => exact ihGo lbl parts base rest _ out seen m' out' seen' h
                | restrictedVis => exact ihGo lbl parts base rest module out seen m' out' seen' h
                | inheritedVis => exact ihGo lbl parts base rest module out seen m' out' seen' h
            | structItem vis ident generics fields =>
                cases vis with
                | publicVis => exact ihGo lbl parts base rest _ out seen m' out' seen' h
                | restrictedVis => exact ihGo lbl parts base rest module out seen m' out' seen' h
                | inheritedVis => exact ihGo lbl parts base rest module out seen m' out' seen' h
            | enumItem vis ident generics variants =>
                cases vis with
                | publicVis => exact ihGo lbl parts base rest _ out seen m' out' seen' h
                | restrictedVis => exact ihGo lbl parts base rest module out seen m' out' seen' h
                | inheritedVis => exact ihGo lbl parts base rest module out seen m' out' seen' h
            | traitItem vis ident generics supertraits titems =>
                cases vis with
                | publicVis => exact ihGo lbl parts base rest _ out seen m' out' seen' h
                | restrictedVis => exact ihGo lbl parts base rest module out seen m' out' seen' h
                | inheritedVis => exact ihGo lbl parts base rest module out seen m' out' seen' h
            | implItem d => exact ihGo lbl parts base rest _ out seen m' out' seen' h
            | macroItem hasExport identOpt snippet =>
                cases hasExport with
                | true =>
                    cases identOpt with
                    | some n => exact ihGo lbl parts base rest _ out seen m' out' seen' h
                    | none => exact ihGo lbl parts base rest _ out seen m' out' seen' h
                | false => exact ihGo lbl parts base rest module out seen m' out' seen' h
            | otherItem => exact ihGo lbl parts base rest module out seen m' out' seen' h
      · intro lbl parts base items out seen out' seen' h
        have h' :
            (match collectItemsGo fs fuel lbl parts base items (emptyModule lbl parts)
                out seen with
            | Except.error e =>
                Except.error (α := List ExtractModule × List FsPath) e
            | Except.ok (m, out1, seen1) =>
                Except.ok (out1 ++ [sortPendingMethods m], seen1)) =
              Except.ok (out', seen') := h
        cases hc : collectItemsGo fs fuel lbl parts base items (emptyModule lbl parts)
            out seen with
        | error e => rw [hc] at h'; exact Except.noConfusion h'
        | ok r =>
            obtain ⟨m, out1, seen1⟩ := r
            rw [hc] at h'
            have h'' := h'
            simp only [Except.ok.injEq, Prod.mk.injEq] at h''
            have r1 := ihGo lbl parts base items (emptyModule lbl parts) out seen m out1
              seen1 hc
            refine ⟨?_, ?_⟩
            · rcases r1.1 with ⟨new, hnew⟩
              refine ⟨new ++ [sortPendingMethods m], ?_⟩
              rw [← h''.1, hnew]
              simp
            · rcases r1.2 with ⟨pre, hpre⟩
              exact ⟨pre, by rw [← h''.2, hpre]⟩
      · intro p parts out seen out' seen' h
        have h' :
            (match fs.canon p with
            | none =>
                Except.error (α := List ExtractModule × List FsPath)
                  ("Failed to canonicalize module path " ++ pathToString p)
            | some canonical =>
                if canonical ∈ seen then Except.ok (out, seen)
                else
                  match findEntry fs.entries canonical with
                  | none =>
                      Except.error (α := List ExtractModule × List FsPath)
                        ("Failed to read module file " ++ pathToString canonical)
                  | some fileItems =>
                      collectModuleItems fs fuel (pathToString canonical) parts
                        (moduleBaseDirForFile canonical) fileItems out (canonical :: seen)) =
              Except.ok (out', seen') := h
        cases hcan : fs.canon p with
        | none => rw [hcan] at h'; exact Except.noConfusion h'
        | some canonical =>
            rw [hcan] at h'
            have h'' :
                (if canonical ∈ seen then Except.ok (out, seen)
                 else
                   match findEntry fs.entries canonical with
                   | none =>
                       Except.error (α := List ExtractModule × List FsPath)
                         ("Failed to read module file " ++ pathToString canonical)
                   | some fileItems =>
                       collectModuleItems fs fuel (pathToString canonical) parts
                         (moduleBaseDirForFile canonical) fileItems out (canonical :: seen)) =
                  Except.ok (out', seen') := h'
            by_cases hmem : canonical ∈ seen
            · rw [if_pos hmem] at h''
              simp only [Except.ok.injEq, Prod.mk.injEq] at h''
              exact ⟨⟨[], by simp [h''.1]⟩, ⟨[], by simp [h''.2]⟩⟩
            · rw [if_neg hmem] at h''
              cases hfind : findEntry fs.entries canonical with
              | none => rw [hfind] at h''; exact Except.noConfusion h''
              | some fileItems =>
                  rw [hfind] at h''
                  have r1 := ihItems (pathToString canonical) parts
                    (moduleBaseDirForFile canonical) fileItems out (canonical :: seen)
                    out' seen' h''
                  refine ⟨r1.1, ?_⟩
                  rcases r1.2 with ⟨pre, hpre⟩
                  exact ⟨pre ++ [canonical], by simp [hpre]⟩

/-- One step of the item loop: processing `item :: rest` runs the loop on
`rest` from a state whose module component is `buildGo` of the single item
and whose output/visited components are either unchanged (any non-module
item, or a private or unresolvable-free module) or extended by the child
walk of a public inline or external module. -/
theorem collectItemsGo_cons (fs : FS) (fuel : Nat) (lbl : String) (parts : List String)
    (base : FsPath) (item : Item) (rest : List Item) (module : ExtractModule)
    (out : List ExtractModule) (seen : List FsPath)
    (r : ExtractModule × List ExtractModule × List FsPath)
    (h : collectItemsGo fs (fuel + 1) lbl parts base (item :: rest) module out seen = .ok r) :
    ∃ module1 out1 seen1,
      collectItemsGo fs fuel lbl parts base rest module1 out1 seen1 = .ok r ∧
      module1 = buildGo lbl [item] module ∧
      ((out1 = out ∧ seen1 = seen ∧
          ∀ visx nx cx, item = .modItem visx nx cx → isPublic visx = false) ∨
        (∃ vis n inner, item = .modItem vis n (some inner) ∧ isPublic vis = true ∧
          collectModuleItems fs fuel lbl (parts ++ [n]) (base ++ [n]) inner out seen =
            .ok (out1, seen1)) ∨
        (∃ vis n childFile, item = .modItem vis n none ∧ isPublic vis = true ∧
          resolveChildModuleFile fs base n = .ok childFile ∧
          collectModuleFile fs fuel childFile (parts ++ [n]) out seen = .ok (out1, seen1))) := by
  cases item with
  | modItem vis ident content =>
      cases vis with
      | publicVis =>
          cases content with
          | some inlineItems =>
              have h' :
                  (match collectModuleItems fs fuel lbl (parts ++ [ident])
                      (base ++ [ident]) inlineItems out seen with
                  | Except.error e =>
                      Except.error
                        (α := ExtractModule × List ExtractModule × List FsPath) e
                  | Except.ok (out1, seen1) =>
                      collectItemsGo fs fuel lbl parts base rest module out1 seen1) =
                    Except.ok r := h
              cases hc : collectModuleItems fs fuel lbl (parts ++ [ident])
                  (base ++ [ident]) inlineItems out seen with
              | error e => rw [hc] at h'; exact Except.noConfusion h'
              | ok s =>
                  obtain ⟨out1, seen1⟩ := s
                  rw [hc] at h'
                  exact ⟨module, out1, seen1, h', rfl,
                    Or.inr (Or.inl ⟨.publicVis, ident, inlineItems, rfl, rfl, hc⟩)⟩
          | none =>
              have h' :
                  (match resolveChildModuleFile fs base ident with
                  | Except.error e =>
                      Except.error
                        (α := ExtractModule × List ExtractModule × List FsPath) e
                  | Except.ok childFile =>
                      match collectModuleFile fs fuel childFile (parts ++ [ident])
                          out seen with
                      | Except.error e =>
                          Except.error
                            (α := ExtractModule × List ExtractModule × List FsPath) e
                      | Except.ok (out1, seen1) =>
                          collectItemsGo fs fuel lbl parts base rest module out1 seen1) =
                    Except.ok r := h
              cases hr : resolveChildModuleFile fs base ident with
              | error e => rw [hr] at h'; exact Except.noConfusion h'
              | ok childFile =>
                  rw [hr] at h'
                  have h'' :
                      (match collectModuleFile fs fuel childFile (parts ++ [ident])
                          out seen with
                      | Except.error e =>
                          Except.error
                            (α := ExtractModule × List ExtractModule × List FsPath) e
                      | Except.ok (out1, seen1) =>
                          collectItemsGo fs fuel lbl parts base rest module out1 seen1) =
                        Except.ok r := h'
                  cases hc : collectModuleFile fs fuel childFile (parts ++ [ident])
                      out seen with
                  | error e => rw [hc] at h''; exact Except.noConfusion h''
                  | ok s =>
                      obtain ⟨out1, seen1⟩ := s
                      rw [hc] at h''
                      exact ⟨module, out1, seen1, h'', rfl,
                        Or.inr (Or.inr ⟨.publicVis, ident, childFile, rfl, rfl, hr, hc⟩)⟩
      | restrictedVis =>
          exact ⟨module, out, seen, h, rfl,
            Or.inl ⟨rfl, rfl, by intro visx nx cx hEq; cases hEq; rfl⟩⟩
      | inheritedVis =>
          exact ⟨module, out, seen, h, rfl,
            Or.inl ⟨rfl, rfl, by intro visx nx cx hEq; cases hEq; rfl⟩⟩
  | constItem vis ident ty =>
      cases vis with
      | publicVis => exact ⟨_, out, seen, h, rfl,
            Or.inl ⟨rfl, rfl, fun visx nx cx hEq => Item.noConfusion hEq⟩⟩
      | restrictedVis => exact ⟨module, out, seen, h, rfl,
            Or.inl ⟨rfl, rfl, fun visx nx cx hEq => Item.noConfusion hEq⟩⟩
      | inheritedVis => exact ⟨module, out, seen, h, rfl,
            Or.inl ⟨rfl, rfl, fun visx nx cx hEq => Item.noConfusion hEq⟩⟩
  | fnItem vis sig =>
      cases vis with
      | publicVis => exact ⟨_, out, seen, h, rfl,
            Or.inl ⟨rfl, rfl, fun visx nx cx hEq => Item.noConfusion hEq⟩⟩
      | restrictedVis => exact ⟨module, out, seen, h, rfl,
            Or.inl ⟨rfl, rfl, fun visx nx cx hEq => Item.noConfusion hEq⟩⟩
      | inheritedVis => exact ⟨module, out, seen, h, rfl,
            Or.inl ⟨rfl, rfl, fun visx nx cx hEq => Item.noConfusion hEq⟩⟩
  | structItem vis ident generics fields =>
      cases vis with
      | publicVis => exact ⟨_, out, seen, h, rfl,
            Or.inl ⟨rfl, rfl, fun visx nx cx hEq => Item.noConfusion hEq⟩⟩
      | restrictedVis => exact ⟨module, out, seen, h, rfl,
            Or.inl ⟨rfl, rfl, fun visx nx cx hEq => Item.noConfusion hEq⟩⟩
      | inheritedVis => exact ⟨module, out, seen, h, rfl,
            Or.inl ⟨rfl, rfl, fun visx nx cx hEq => Item.noConfusion hEq⟩⟩
  | enumItem vis ident generics variants =>
      cases vis with
      | publicVis => exact ⟨_, out, seen, h, rfl,
            Or.inl ⟨rfl, rfl, fun visx nx cx hEq => Item.noConfusion hEq⟩⟩
      | restrictedVis => exact ⟨module, out, seen, h, rfl,
            Or.inl ⟨rfl, rfl, fun visx nx cx hEq => Item.noConfusion hEq⟩⟩
      | inheritedVis => exact ⟨module, out, seen, h, rfl,
            Or.inl ⟨rfl, rfl, fun visx nx cx hEq => Item.noConfusion hEq⟩⟩
  | traitItem vis ident generics supertraits titems =>
      cases vis with
      | publicVis => exact ⟨_, out, seen, h, rfl,
            Or.inl ⟨rfl, rfl, fun visx nx cx hEq => Item.noConfusion hEq⟩⟩
      | restrictedVis => exact ⟨module, out, seen, h, rfl,
            Or.inl ⟨rfl, rfl, fun visx nx cx hEq => Item.noConfusion hEq⟩⟩
      | inheritedVis => exact ⟨module, out, seen, h, rfl,
            Or.inl ⟨rfl, rfl, fun visx nx cx hEq => Item.noConfusion hEq⟩⟩
  | implItem d => exact ⟨_, out, seen, h, rfl,
            Or.inl ⟨rfl, rfl, fun visx nx cx hEq => Item.noConfusion hEq⟩⟩
  | macroItem hasExport identOpt snippet =>
      cases hasExport with
      | true =>
          cases identOpt with
          | some n => exact ⟨_, out, seen, h, rfl,
            Or.inl ⟨rfl, rfl, fun visx nx cx hEq => Item.noConfusion hEq⟩⟩
          | none => exact ⟨_, out, seen, h, rfl,
            Or.inl ⟨rfl, rfl, fun visx nx cx hEq => Item.noConfusion hEq⟩⟩
      | false => exact ⟨module, out, seen, h, rfl,
            Or.inl ⟨rfl, rfl, fun visx nx cx hEq => Item.noConfusion hEq⟩⟩
  | otherItem => exact ⟨module, out, seen, h, rfl,
            Or.inl ⟨rfl, rfl, fun visx nx cx hEq => Item.noConfusion hEq⟩⟩

/-- `buildGo` never changes the record's file label. -/
theorem buildGo_file (lbl : String) : ∀ (items : List Item) (module : ExtractModule),
    (buildGo lbl items module).file = module.file := by
  intro items
  induction items with
  | nil => intro module; rfl
  | cons item rest ih =>
      intro module
      cases item with
      | modItem vis ident content => exact ih module
      | constItem vis ident ty => cases vis <;> exact ih _
      | fnItem vis sig => cases vis <;> exact ih _
      | structItem vis ident generics fields => cases vis <;> exact ih _
      | enumItem vis ident generics variants => cases vis <;> exact ih _
      | traitItem vis ident generics supertraits titems => cases vis <;> exact ih _
      | implItem d => exact ih _
      | macroItem hasExport identOpt snippet =>
          cases hasExport with
          | true => cases identOpt <;> exact ih _
          | false => exact ih _
      | otherItem => exact ih _

/-- `buildGo` never changes the record's parts. -/
theorem buildGo_parts (lbl : String) : ∀ (items : List Item) (module : ExtractModule),
    (buildGo lbl items module).parts = module.parts := by
  intro items
  induction items with
  | nil => intro module; rfl
  | cons item rest ih =>
      intro module
      cases item with
      | modItem vis ident content => exact ih module
      | constItem vis ident ty => cases vis <;> exact ih _
      | fnItem vis sig => cases vis <;> exact ih _
      | structItem vis ident generics fields => cases vis <;> exact ih _
      | enumItem vis ident generics variants => cases vis <;> exact ih _
      | traitItem vis ident generics supertraits titems => cases vis <;> exact ih _
      | implItem d => exact ih _
      | macroItem hasExport identOpt snippet =>
          cases hasExport with
          | true => cases identOpt <;> exact ih _
          | false => exact ih _
      | otherItem => exact ih _

theorem sortPendingMethods_file (m : ExtractModule) :
    (sortPendingMethods m).file = m.file := by
  unfold sortPendingMethods
  split <;> rfl

theorem sortPendingMethods_parts (m : ExtractModule) :
    (sortPendingMethods m).parts = m.parts := by
  unfold sortPendingMethods
  split <;> rfl

theorem sortPendingMethods_pending_perm (m : ExtractModule) :
    (sortPendingMethods m).pending_methods.Perm m.pending_methods := by
  unfold sortPendingMethods
  split
  · exact List.Perm.refl _
  · exact List.perm_insertionSort PendLE m.pending_methods

/-- A successful `collect_module_items` appends, after whatever the child
walks appended, exactly one record for its own file and parts: the
`buildGo` record with pending-method groups sorted. -/
theorem collectModuleItems_own (fs : FS) (fuel : Nat) (lbl : String) (parts : List String)
    (base : FsPath) (items : List Item) (out : List ExtractModule) (seen : List FsPath)
    (out' : List ExtractModule) (seen' : List FsPath)
    (h : collectModuleItems fs fuel lbl parts base items out seen = .ok (out', seen')) :
    ∃ mid, out' =
      out ++ mid ++ [sortPendingMethods (buildGo lbl items (emptyModule lbl parts))] := by
  cases fuel with
  | zero => exact Except.noConfusion h
  | succ fuel =>
      have h' :
          (match collectItemsGo fs fuel lbl parts base items (emptyModule lbl parts)
              out seen with
          | Except.error e => Except.error (α := List ExtractModule × List FsPath) e
          | Except.ok (m, out1, seen1) =>
              Except.ok (out1 ++ [sortPendingMethods m], seen1)) =
            Except.ok (out', seen') := h
      cases hc : collectItemsGo fs fuel lbl parts base items (emptyModule lbl parts)
          out seen with
      | error e => rw [hc] at h'; exact Except.noConfusion h'
      | ok r =>
          obtain ⟨m, out1, seen1⟩ := r
          rw [hc] at h'
          simp only [Except.ok.injEq, Prod.mk.injEq] at h'
          have hm := collectItemsGo_module fs fuel lbl parts base items
            (emptyModule lbl parts) out seen m out1 seen1 hc
          obtain ⟨new, hnew⟩ := ((walk_extends fs fuel).1 lbl parts base items
            (emptyModule lbl parts) out seen m out1 seen1 hc).1
          refine ⟨new, ?_⟩
          rw [← h'.1, hnew, hm]

/-- The pending-method entry an item contributes: only impl items
contribute, and only when `parse_impl` yields one. -/
def implEntry (fileLabel : String) : Item → Option PendingMethods
  | .implItem d => (parseImpl d fileLabel).1
  | _ => none

/-- The pending-method groups of the built record are the initial ones
followed by one entry per contributing impl block, in declaration order. -/
theorem buildGo_pending (lbl : String) : ∀ (items : List Item) (module : ExtractModule),
    (buildGo lbl items module).pending_methods =
      module.pending_methods ++ items.filterMap (implEntry lbl) := by
  intro items
  induction items with
  | nil => intro module; simp [buildGo]
  | cons item rest ih =>
      intro module
      cases item with
      | modItem vis ident content => simp [buildGo, implEntry, ih]
      | constItem vis ident ty => cases vis <;> simp [buildGo, isPublic, implEntry, ih]
      | fnItem vis sig => cases vis <;> simp [buildGo, isPublic, implEntry, ih]
      | structItem vis ident generics fields =>
          cases vis <;> simp [buildGo, isPublic, implEntry, ih]
      | enumItem vis ident generics variants =>
          cases vis <;> simp [buildGo, isPublic, implEntry, ih]
      | traitItem vis ident generics supertraits titems =>
          cases vis <;> simp [buildGo, isPublic, implEntry, ih]
      | implItem d =>
          rw [show buildGo lbl (.implItem d :: rest) module =
            buildGo lbl rest
              { module with
                  pending_methods := module.pending_methods ++ (parseImpl d lbl).1.toList
                  issues := module.issues ++ (parseImpl d lbl).2 } from rfl]
          rw [ih]
          cases ho : (parseImpl d lbl).1 <;> simp [implEntry, ho]
      | macroItem hasExport identOpt snippet =>
          cases hasExport with
          | true => cases identOpt <;> simp [buildGo, implEntry, ih]
          | false => simp [buildGo, implEntry, ih]
      | otherItem => simp [buildGo, implEntry, ih]

/-- Every public inline module declaration in the processed items leaves a
record in the output carrying the same file label and the parts extended
by the module name. -/
theorem collectItemsGo_inline (fs : FS) : ∀ (fuel : Nat) (lbl : String) (parts : List String)
    (base : FsPath) (items : List Item) (module : ExtractModule) (out : List ExtractModule)
    (seen : List FsPath) (m' : ExtractModule) (out' : List ExtractModule)
    (seen' : List FsPath),
    collectItemsGo fs fuel lbl parts base items module out seen = .ok (m', out', seen') →
    ∀ vis n inner, Item.modItem vis n (some inner) ∈ items → isPublic vis = true →
    ∃ r, r ∈ out' ∧ r.file = lbl ∧ r.parts = parts ++ [n] := by
  intro fuel
  induction fuel with
  | zero =>
      intro lbl parts base items module out seen m' out' seen' h
      exact Except.noConfusion h
  | succ fuel ih =>
      intro lbl parts base items module out seen m' out' seen' h vis n inner hmem hpub
      cases items with
      | nil => simp at hmem
      | cons item rest =>
          obtain ⟨module1, out1, seen1, hrest, hmod1, hstep⟩ :=
            collectItemsGo_cons fs fuel lbl parts base item rest module out seen
              (m', out', seen') h
          rcases List.mem_cons.mp hmem with heq | hmem'
          · subst heq
            rcases hstep with ⟨_, _, hno⟩ | ⟨visx, nx, innerx, hEq, hpubx, hc⟩ |
                ⟨visx, nx, cfx, hEq, hpubx, hrx, hcx⟩
            · rw [hno vis n (some inner) rfl] at hpub
              exact Bool.noConfusion hpub
            · cases hEq
              obtain ⟨mid, hout1⟩ := collectModuleItems_own fs fuel lbl (parts ++ [n])
                (base ++ [n]) inner out seen out1 seen1 hc
              obtain ⟨new, hout'⟩ := ((walk_extends fs fuel).1 lbl parts base rest module1
                out1 seen1 m' out' seen' hrest).1
              refine ⟨sortPendingMethods
                (buildGo lbl inner (emptyModule lbl (parts ++ [n]))), ?_, ?_, ?_⟩
              · rw [hout', hout1]
                simp
              · rw [sortPendingMethods_file, buildGo_file]
                rfl
              · rw [sortPendingMethods_parts, buildGo_parts]
                rfl
            · exact Option.noConfusion (Item.modItem.inj hEq).2.2
          · exact ih lbl parts base rest module1 out1 seen1 m' out' seen' hrest vis n inner
              hmem' hpub

/-! ### Characterizations of the leaf extractors -/

/-- The identifier a generic parameter contributes to a type-parameter
list: only type parameters contribute. -/
def typeParamIdent? : GenericParam → Option String
  | .typeParam id => some id
  | .lifetimeParam _ => none
  | .constParam _ => none

/-- The Issue a generic parameter contributes: only lifetime and const
parameters contribute. -/
def genericIssueOf (file ownerKind ownerName : String) : GenericParam → Option SkipIssue
  | .typeParam _ => none
  | .lifetimeParam s => some (lifetimeGenericIssue file ownerKind ownerName s)
  | .constParam s => some (constGenericIssue file ownerKind ownerName s)

theorem parseTypeParams_fst (file ownerKind ownerName : String) (gs : List GenericParam) :
    (parseTypeParams file ownerKind ownerName gs).1 = gs.filterMap typeParamIdent? := by
  induction gs with
  | nil => rfl
  | cons g rest ih => cases g <;> simp [parseTypeParams, typeParamIdent?, ih]

theorem parseTypeParams_snd (file ownerKind ownerName : String) (gs : List GenericParam) :
    (parseTypeParams file ownerKind ownerName gs).2 =
      gs.filterMap (genericIssueOf file ownerKind ownerName) := by
  induction gs with
  | nil => rfl
  | cons g rest ih => cases g <;> simp [parseTypeParams, genericIssueOf, ih]

theorem parseTypeParams_kinds (file ownerKind ownerName : String) (gs : List GenericParam) :
    ∀ i ∈ (parseTypeParams file ownerKind ownerName gs).2, i.kind = "generic" := by
  rw [parseTypeParams_snd]
  intro i hi
  rcases List.mem_filterMap.mp hi with ⟨g, _, hg⟩
  cases g with
  | typeParam _ => simp [genericIssueOf] at hg
  | lifetimeParam s => simp [genericIssueOf] at hg; simp [← hg, lifetimeGenericIssue]
  | constParam s => simp [genericIssueOf] at hg; simp [← hg, constGenericIssue]

theorem parseSignatureInputs_kinds (file : String) (inputs : List FnArg) :
    ∀ i ∈ (parseSignatureInputs file inputs).2, i.kind = "param" := by
  induction inputs with
  | nil => intro i hi; simp [parseSignatureInputs] at hi
  | cons arg rest ih =>
      intro i hi
      cases arg with
      | receiver hasRef hasMut => exact ih i (by simpa [parseSignatureInputs] using hi)
      | typed pat ty =>
          cases pat with
          | identPat n => exact ih i (by simpa [parseSignatureInputs] using hi)
          | otherPat s =>
              simp [parseSignatureInputs] at hi
              rcases hi with h | h
              · simp [h, paramIssue]
              · exact ih i h

/-- The type parameters of an extracted signature are exactly the type
parameters of the generic list, in declared order. -/
theorem parseSignature_type_params (sig : Signature) (file : String) :
    (parseSignature sig file).1.type_params = sig.generics.filterMap typeParamIdent? := by
  simp [parseSignature, parseTypeParams_fst]

theorem namedFields_eq_filter (fl : List FieldDef) :
    namedFields fl =
      (fl.filter (fun f => isPublic f.vis)).filterMap
        (fun f => f.ident.map (fun n =>
          ({ name := n, type_text := typeToString f.ty } : ExtractField))) := by
  induction fl with
  | nil => rfl
  | cons f rest ih =>
      by_cases h : isPublic f.vis
      · cases hid : f.ident <;> simp [namedFields, h, hid, ih]
      · simp [namedFields, h, ih]

/-- Whether a field list is the unit (absent) form. -/
def isUnitFields : FieldsKind → Bool
  | .unit => true
  | _ => false

theorem enumVariants_fst (file : String) (variants : List Variant) :
    (enumVariants file variants).1 = variants.map (fun v => v.ident) := by
  induction variants with
  | nil => rfl
  | cons v rest ih => cases h : v.fields <;> simp [enumVariants, h, ih]

theorem enumVariants_snd (file : String) (variants : List Variant) :
    (enumVariants file variants).2 =
      (variants.filter (fun v => !isUnitFields v.fields)).map
        (fun v => enumIssue file v.ident) := by
  induction variants with
  | nil => rfl
  | cons v rest ih => cases h : v.fields <;> simp [enumVariants, isUnitFields, h, ih]

/-- The names contributed to a trait's type-parameter list by its
associated-type items. -/
def assocTypeNames : List TraitItemK → List String
  | [] => []
  | .typeItem a :: rest => a :: assocTypeNames rest
  | _ :: rest => assocTypeNames rest

theorem traitLoop_methods (file : String) (items : List TraitItemK) (tps : List String) :
    (traitLoop file items tps).2.1 =
      items.filterMap (fun ti =>
        match ti with
        | .fnItem s => some (parseSignature s file).1
        | _ => none) := by
  induction items generalizing tps with
  | nil => rfl
  | cons ti rest ih => cases ti <;> simp [traitLoop, ih]

theorem traitLoop_mem_fst (file : String) (items : List TraitItemK) (tps : List String)
    (a : String) :
    a ∈ (traitLoop file items tps).1 ↔ a ∈ tps ∨ a ∈ assocTypeNames items := by
  induction items generalizing tps with
  | nil => simp [traitLoop, assocTypeNames]
  | cons ti rest ih =>
      cases ti with
      | fnItem s => simp [traitLoop, assocTypeNames, ih]
      | typeItem b =>
          by_cases hb : b ∈ tps
          · rw [show assocTypeNames (.typeItem b :: rest) = b :: assocTypeNames rest from rfl]
            simp only [traitLoop, if_pos hb, ih, List.mem_cons]
            constructor
            · rintro (h | h)
              · exact Or.inl h
              · exact Or.inr (Or.inr h)
            · rintro (h | h | h)
              · exact Or.inl h
              · exact Or.inl (h ▸ hb)
              · exact Or.inr h
          · rw [show assocTypeNames (.typeItem b :: rest) = b :: assocTypeNames rest from rfl]
            simp only [traitLoop, if_neg hb, ih, List.mem_append, List.mem_singleton,
              List.mem_cons]
            tauto
      | otherItem s => simp [traitLoop, assocTypeNames, ih]

theorem traitLoop_nodup_fst (file : String) (items : List TraitItemK) :
    ∀ tps : List String, tps.Nodup → (traitLoop file items tps).1.Nodup := by
  induction items with
  | nil => intro tps h; simpa [traitLoop] using h
  | cons ti rest ih =>
      intro tps h
      cases ti with
      | fnItem s => simpa [traitLoop] using ih tps h
      | typeItem b =>
          by_cases hb : b ∈ tps
          · simpa [traitLoop, if_pos hb] using ih tps h
          · have h' : (tps ++ [b]).Nodup := by
              rw [List.nodup_append]
              refine ⟨h, List.nodup_singleton b, ?_⟩
              intro a ha hab
              rw [List.mem_singleton] at hab
              subst hab
              exact hb ha
            simpa [traitLoop, if_neg hb] using ih (tps ++ [b]) h'
      | otherItem s => simpa [traitLoop] using ih tps h

theorem implMethods_eq (file : String) (items : List ImplItemK) :
    implMethods file items =
      ((items.filterMap (fun ii =>
          match ii with
          | .fnImpl vis sig => if isPublic vis then some sig else none
          | .otherImpl => none)).map (fun s => (parseSignature s file).1),
       (items.filterMap (fun ii =>
          match ii with
          | .fnImpl vis sig => if isPublic vis then some sig else none
          | .otherImpl => none)).flatMap (fun s => (parseSignature s file).2)) := by
  induction items with
  | nil => rfl
  | cons ii rest ih =>
      cases ii with
      | fnImpl vis sig =>
          by_cases h : isPublic vis <;> simp [implMethods, h, ih]
      | otherImpl => simp [implMethods, ih]

theorem genericIssueOf_length (file ownerKind ownerName : String) (gs : List GenericParam) :
    (gs.filterMap (genericIssueOf file ownerKind ownerName)).length =
      (gs.filter (fun g => (typeParamIdent? g).isNone)).length := by
  induction gs with
  | nil => rfl
  | cons g rest ih => cases g <;> simp [genericIssueOf, typeParamIdent?, ih]

/-! ### Claim theorems for the leaf extractors -/

/-- **C7**: in every extracted generic-parameter list, type parameters are
kept in declared order while each lifetime and each const parameter is
dropped and produces exactly one Issue of kind `generic`; a function with
one lifetime parameter and one type parameter yields a type-parameter list
holding only that type parameter plus one `generic` Issue. -/
theorem parse_type_params_drop_lifetime_const :
    (∀ file ownerKind ownerName gs,
        (parseTypeParams file ownerKind ownerName gs).1 = gs.filterMap typeParamIdent?) ∧
    (∀ file ownerKind ownerName gs,
        (parseTypeParams file ownerKind ownerName gs).2 =
          gs.filterMap (genericIssueOf file ownerKind ownerName)) ∧
    (∀ file ownerKind ownerName gs,
        ((parseTypeParams file ownerKind ownerName gs).2.countP (fun i => i.kind == "generic")) =
          (gs.filter (fun g => (typeParamIdent? g).isNone)).length) ∧
    (∀ sig file l T, sig.generics = [.lifetimeParam l, .typeParam T] →
        (parseSignature sig file).1.type_params = [T] ∧
        ((parseSignature sig file).2.countP (fun i => i.kind == "generic")) = 1) := by
  refine ⟨parseTypeParams_fst, parseTypeParams_snd, ?_, ?_⟩
  · intro file ownerKind ownerName gs
    have hk := parseTypeParams_kinds file ownerKind ownerName gs
    rw [List.countP_eq_length.mpr (fun i hi => by simp [hk i hi])]
    rw [parseTypeParams_snd, genericIssueOf_length]
  · intro sig file l T hg
    constructor
    · rw [parseSignature_type_params, hg]
      rfl
    · have hsplit : (parseSignature sig file).2 =
          (parseTypeParams file "Function" sig.ident sig.generics).2 ++
            (parseSignatureInputs file sig.inputs).2 := rfl
      rw [hsplit, List.countP_append]
      have h1 : (parseTypeParams file "Function" sig.ident sig.generics).2.countP
          (fun i => i.kind == "generic") = 1 := by
        rw [parseTypeParams_snd, hg]
        rfl
      have h2 : (parseSignatureInputs file sig.inputs).2.countP
          (fun i => i.kind == "generic") = 0 := by
        rw [List.countP_eq_zero]
        intro i hi
        have := parseSignatureInputs_kinds file sig.inputs i hi
        simp [this]
      omega

/-- **C5**: a public struct keeps its public named fields in declaration
order with no `struct` Issue; a tuple-style struct is emitted with zero
fields plus exactly one Issue of kind `struct`; a unit struct is emitted
with zero fields, no `struct` Issue, and (when its generic parameters are
all plain type parameters) no diagnostic at all. -/
theorem parse_struct_fields_and_issues :
    (∀ ident generics fl file,
        (parseStruct ident generics (.named fl) file).1.fields =
          (fl.filter (fun f => isPublic f.vis)).filterMap
            (fun f => f.ident.map (fun n =>
              ({ name := n, type_text := typeToString f.ty } : ExtractField))) ∧
        ((parseStruct ident generics (.named fl) file).2.countP
          (fun i => i.kind == "struct")) = 0) ∧
    (∀ ident generics file,
        (parseStruct ident generics .unnamed file).1.fields = [] ∧
        ((parseStruct ident generics .unnamed file).2.countP
          (fun i => i.kind == "struct")) = 1) ∧
    (∀ ident generics file,
        (parseStruct ident generics .unit file).1.fields = [] ∧
        ((parseStruct ident generics .unit file).2.countP
          (fun i => i.kind == "struct")) = 0 ∧
        ((∀ g ∈ generics, (typeParamIdent? g).isSome) →
          (parseStruct ident generics .unit file).2 = [])) := by
  have tpzero : ∀ ident file (generics : List GenericParam),
      ((parseTypeParams file "Struct" ident generics).2.countP
        (fun i => i.kind == "struct")) = 0 := by
    intro ident file generics
    rw [List.countP_eq_zero]
    intro i hi
    have := parseTypeParams_kinds file "Struct" ident generics i hi
    simp [this]
  refine ⟨?_, ?_, ?_⟩
  · intro ident generics fl file
    constructor
    · simp [parseStruct, namedFields_eq_filter]
    · have : (parseStruct ident generics (.named fl) file).2 =
          (parseTypeParams file "Struct" ident generics).2 ++ [] := rfl
      rw [this, List.countP_append, tpzero]
      rfl
  · intro ident generics file
    refine ⟨rfl, ?_⟩
    have : (parseStruct ident generics .unnamed file).2 =
        (parseTypeParams file "Struct" ident generics).2 ++ [structIssue file ident] := rfl
    rw [this, List.countP_append, tpzero]
    simp [structIssue]
  · intro ident generics file
    refine ⟨rfl, ?_, ?_⟩
    · have : (parseStruct ident generics .unit file).2 =
          (parseTypeParams file "Struct" ident generics).2 ++ [] := rfl
      rw [this, List.countP_append, tpzero]
      rfl
    · intro hall
      have : (parseStruct ident generics .unit file).2 =
          (parseTypeParams file "Struct" ident generics).2 ++ [] := rfl
      rw [this, List.append_nil, parseTypeParams_snd]
      rw [List.filterMap_eq_nil_iff]
      intro g hg
      have := hall g hg
      cases g with
      | typeParam _ => rfl
      | lifetimeParam s => simp [typeParamIdent?] at this
      | constParam s => simp [typeParamIdent?] at this

/-- **C6**: every enum variant contributes its bare name to the ordered
variant list regardless of payload, and the `enum` Issues are exactly one
per payload-carrying variant (unit variants contribute none). -/
theorem parse_enum_variants_and_issues :
    ∀ ident generics variants file,
      (parseEnum ident generics variants file).1.variants =
        variants.map (fun v => v.ident) ∧
      (parseEnum ident generics variants file).2.filter (fun i => i.kind == "enum") =
        (variants.filter (fun v => !isUnitFields v.fields)).map
          (fun v => enumIssue file v.ident) := by
  intro ident generics variants file
  constructor
  · simp [parseEnum, enumVariants_fst]
  · have hsplit : (parseEnum ident generics variants file).2 =
        (parseTypeParams file "Enum" ident generics).2 ++ (enumVariants file variants).2 := rfl
    rw [hsplit, List.filter_append]
    have h1 : (parseTypeParams file "Enum" ident generics).2.filter
        (fun i => i.kind == "enum") = [] := by
      rw [List.filter_eq_nil_iff]
      intro i hi
      have := parseTypeParams_kinds file "Enum" ident generics i hi
      simp [this]
    have h2 : (enumVariants file variants).2.filter (fun i => i.kind == "enum") =
        (enumVariants file variants).2 := by
      rw [List.filter_eq_self]
      intro i hi
      rw [enumVariants_snd] at hi
      rcases List.mem_map.mp hi with ⟨v, _, hv⟩
      simp [← hv, enumIssue]
    rw [h1, h2, enumVariants_snd]
    rfl

/-- **C9**: a public trait's associated-type items contribute their name
to the type-parameter list only when not already present (so, starting
from duplicate-free generics, the list stays duplicate-free and contains
each associated type's name exactly once), and every method lands in the
method list. -/
theorem parse_trait_assoc_types_dedup :
    ∀ ident generics sts items file,
      (parseTrait ident generics sts items file).1.methods =
        items.filterMap (fun ti =>
          match ti with
          | .fnItem s => some (parseSignature s file).1
          | _ => none) ∧
      (∀ a, a ∈ (parseTrait ident generics sts items file).1.type_params ↔
        a ∈ (parseTypeParams file "Trait" ident generics).1 ∨ a ∈ assocTypeNames items) ∧
      ((parseTypeParams file "Trait" ident generics).1.Nodup →
        ((parseTrait ident generics sts items file).1.type_params.Nodup ∧
          ∀ a ∈ assocTypeNames items,
            (parseTrait ident generics sts items file).1.type_params.count a = 1)) := by
  intro ident generics sts items file
  refine ⟨?_, ?_, ?_⟩
  · simpa [parseTrait] using traitLoop_methods file items
      (parseTypeParams file "Trait" ident generics).1
  · intro a
    simpa [parseTrait] using traitLoop_mem_fst file items
      (parseTypeParams file "Trait" ident generics).1 a
  · intro h
    have hnd : (parseTrait ident generics sts items file).1.type_params.Nodup := by
      simpa [parseTrait] using traitLoop_nodup_fst file items
        (parseTypeParams file "Trait" ident generics).1 h
    refine ⟨hnd, ?_⟩
    intro a ha
    have hmem : a ∈ (parseTrait ident generics sts items file).1.type_params := by
      have := traitLoop_mem_fst file items (parseTypeParams file "Trait" ident generics).1 a
      simp [parseTrait]
      exact (this).mpr (Or.inr ha)
    exact List.count_eq_one_of_mem hnd hmem

/-- Whether an item is one of the kinds the classifier skips when private:
a const, function, struct, enum, trait, or module declaration whose
visibility is not `pub`. -/
def isPrivateSkippable : Item → Bool
  | .modItem vis _ _ => !(isPublic vis)
  | .constItem vis _ _ => !(isPublic vis)
  | .fnItem vis _ => !(isPublic vis)
  | .structItem vis _ _ _ => !(isPublic vis)
  | .enumItem vis _ _ _ => !(isPublic vis)
  | .traitItem vis _ _ _ _ => !(isPublic vis)
  | .implItem _ => false
  | .macroItem _ _ _ => false
  | .otherItem => false

/-- **C4**: no private item reaches any module collection.  A private
const, function, struct, enum, trait, or module declaration at the head of
the item list is skipped outright — the loop continues on the tail with
the module record, output list, and visited set untouched, so in
particular a private module is never descended into; private struct fields
are dropped by the field loop; private methods are dropped by the
inherent-impl method loop. -/
theorem private_items_skipped :
    (∀ fs fuel lbl parts base item rest module out seen,
        isPrivateSkippable item = true →
        collectItemsGo fs (fuel + 1) lbl parts base (item :: rest) module out seen =
          collectItemsGo fs fuel lbl parts base rest module out seen) ∧
    (∀ fl, namedFields fl = namedFields (fl.filter (fun f => isPublic f.vis))) ∧
    (∀ file iitems, implMethods file iitems =
        implMethods file (iitems.filter (fun ii =>
          match ii with
          | .fnImpl vis _ => isPublic vis
          | .otherImpl => true))) := by
  refine ⟨?_, ?_, ?_⟩
  · intro fs fuel lbl parts base item rest module out seen hpriv
    cases item with
    | modItem vis ident content =>
        cases vis with
        | publicVis => exact Bool.noConfusion hpriv
        | restrictedVis => rfl
        | inheritedVis => rfl
    | constItem vis ident ty =>
        cases vis with
        | publicVis => exact Bool.noConfusion hpriv
        | restrictedVis => rfl
        | inheritedVis => rfl
    | fnItem vis sig =>
        cases vis with
        | publicVis => exact Bool.noConfusion hpriv
        | restrictedVis => rfl
        | inheritedVis => rfl
    | structItem vis ident generics fields =>
        cases vis with
        | publicVis => exact Bool.noConfusion hpriv
        | restrictedVis => rfl
        | inheritedVis => rfl
    | enumItem vis ident generics variants =>
        cases vis with
        | publicVis => exact Bool.noConfusion hpriv
        | restrictedVis => rfl
        | inheritedVis => rfl
    | traitItem vis ident generics supertraits titems =>
        cases vis with
        | publicVis => exact Bool.noConfusion hpriv
        | restrictedVis => rfl
        | inheritedVis => rfl
    | implItem d => exact Bool.noConfusion hpriv
    | macroItem hasExport identOpt snippet => exact Bool.noConfusion hpriv
    | otherItem => exact Bool.noConfusion hpriv
  · intro fl
    induction fl with
    | nil => rfl
    | cons f rest ih =>
        by_cases hp : isPublic f.vis = true
        · simp [namedFields, hp, ih]
        · simp only [Bool.not_eq_true] at hp
          simp [namedFields, hp, ih]
  · intro file iitems
    induction iitems with
    | nil => rfl
    | cons ii rest ih =>
        cases ii with
        | fnImpl vis sig =>
            by_cases hp : isPublic vis = true
            · simp [implMethods, hp, ih]
            · simp only [Bool.not_eq_true] at hp
              simp [implMethods, hp, ih]
        | otherImpl => simp [implMethods, ih]

/-- **C8**: a trait-implementing block contributes no pending-method
entry; an inherent block with zero public methods contributes none; an
eligible inherent block (nominal target, at least one public method)
contributes exactly one entry of its own; and at module level the final
record has exactly one pending-method entry per contributing block — in
particular two same-target blocks keep two separate entries. -/
theorem impl_blocks_pending_entries :
    (∀ d file, d.isTraitImpl = true → parseImpl d file = (none, [])) ∧
    (∀ d file, (implMethods file d.items).1 = [] → (parseImpl d file).1 = none) ∧
    (∀ d file segs t, d.isTraitImpl = false → d.selfTy = .path segs →
        segs.getLast? = some t → (implMethods file d.items).1 ≠ [] →
        (parseImpl d file).1 =
          some { target := t, methods := (implMethods file d.items).1 }) ∧
    (∀ fs fuel lbl parts base items out seen out' seen',
        collectModuleItems fs fuel lbl parts base items out seen = .ok (out', seen') →
        ∃ mid m, out' = out ++ mid ++ [m] ∧
          m.pending_methods.length = (items.filterMap (implEntry lbl)).length ∧
          ∀ T, m.pending_methods.countP (fun p => p.target == T) =
            (items.filterMap (implEntry lbl)).countP (fun p => p.target == T)) := by
  refine ⟨?_, ?_, ?_, ?_⟩
  · intro d file h
    simp [parseImpl, h]
  · intro d file h
    cases ht : d.isTraitImpl with
    | true => simp [parseImpl, ht]
    | false =>
        cases hs : d.selfTy with
        | path segs =>
            cases hl : segs.getLast? with
            | none => simp [parseImpl, ht, hs, hl]
            | some t => simp [parseImpl, ht, hs, hl, h]
        | otherTy text => simp [parseImpl, ht, hs]
  · intro d file segs t ht hs hl hne
    simp [parseImpl, ht, hs, hl, List.isEmpty_iff, hne]
  · intro fs fuel lbl parts base items out seen out' seen' h
    obtain ⟨mid, hout⟩ := collectModuleItems_own fs fuel lbl parts base items out seen
      out' seen' h
    refine ⟨mid, sortPendingMethods (buildGo lbl items (emptyModule lbl parts)), hout,
      ?_, ?_⟩
    all_goals
      have hperm := sortPendingMethods_pending_perm
        (buildGo lbl items (emptyModule lbl parts))
      rw [buildGo_pending lbl items (emptyModule lbl parts)] at hperm
      simp only [emptyModule, List.nil_append] at hperm
    · exact hperm.length_eq
    · intro T
      exact hperm.countP_eq _

/-- **C10**: a successful item collection pushes a record for its own file
and parts, and for every public inline module declaration it pushes a
separate record with the same file label and the parts extended by the
module's name — so one file can yield several records differing only in
parts. -/
theorem inline_modules_same_file_records :
    ∀ fs fuel lbl parts base items out seen out' seen',
      collectModuleItems fs fuel lbl parts base items out seen = .ok (out', seen') →
      (∃ r, r ∈ out' ∧ r.file = lbl ∧ r.parts = parts) ∧
      (∀ vis n inner, Item.modItem vis n (some inner) ∈ items → isPublic vis = true →
        ∃ r, r ∈ out' ∧ r.file = lbl ∧ r.parts = parts ++ [n]) := by
  intro fs fuel lbl parts base items out seen out' seen' h
  constructor
  · obtain ⟨mid, hout⟩ := collectModuleItems_own fs fuel lbl parts base items out seen
      out' seen' h
    refine ⟨sortPendingMethods (buildGo lbl items (emptyModule lbl parts)), ?_, ?_, ?_⟩
    · rw [hout]; simp
    · rw [sortPendingMethods_file, buildGo_file]; rfl
    · rw [sortPendingMethods_parts, buildGo_parts]; rfl
  · intro vis n inner hmem hpub
    cases fuel with
    | zero => exact Except.noConfusion h
    | succ fuel =>
        have h' :
            (match collectItemsGo fs fuel lbl parts base items (emptyModule lbl parts)
                out seen with
            | Except.error e => Except.error (α := List ExtractModule × List FsPath) e
            | Except.ok (m, out1, seen1) =>
                Except.ok (out1 ++ [sortPendingMethods m], seen1)) =
              Except.ok (out', seen') := h
        cases hc : collectItemsGo fs fuel lbl parts base items (emptyModule lbl parts)
            out seen with
        | error e => rw [hc] at h'; exact Except.noConfusion h'
        | ok r =>
            obtain ⟨m, out1, seen1⟩ := r
            rw [hc] at h'
            simp only [Except.ok.injEq, Prod.mk.injEq] at h'
            obtain ⟨rr, hrr, hfile, hparts⟩ := collectItemsGo_inline fs fuel lbl parts base
              items (emptyModule lbl parts) out seen m out1 seen1 hc vis n inner hmem hpub
            exact ⟨rr, by rw [← h'.1]; exact List.mem_append_left _ hrr, hfile, hparts⟩

/-- A successful item loop implies every public external module
declaration in the items resolved to a child file. -/
theorem collectItemsGo_resolves (fs : FS) : ∀ (fuel : Nat) (lbl : String)
    (parts : List String) (base : FsPath) (items : List Item) (module : ExtractModule)
    (out : List ExtractModule) (seen : List FsPath)
    (r : ExtractModule × List ExtractModule × List FsPath),
    collectItemsGo fs fuel lbl parts base items module out seen = .ok r →
    ∀ vis n, Item.modItem vis n none ∈ items → isPublic vis = true →
    ∃ cf, resolveChildModuleFile fs base n = .ok cf := by
  intro fuel
  induction fuel with
  | zero =>
      intro lbl parts base items module out seen r h
      exact Except.noConfusion h
  | succ fuel ih =>
      intro lbl parts base items module out seen r h vis n hmem hpub
      cases items with
      | nil => simp at hmem
      | cons item rest =>
          obtain ⟨module1, out1, seen1, hrest, hmod1, hstep⟩ :=
            collectItemsGo_cons fs fuel lbl parts base item rest module out seen r h
          rcases List.mem_cons.mp hmem with heq | hmem'
          · subst heq
            rcases hstep with ⟨_, _, hno⟩ | ⟨visx, nx, innerx, hEq, hpubx, hc⟩ |
                ⟨visx, nx, cfx, hEq, hpubx, hrx, hcx⟩
            · rw [hno vis n none rfl] at hpub
              exact Bool.noConfusion hpub
            · exact Option.noConfusion (Item.modItem.inj hEq).2.2
            · cases hEq
              exact ⟨cfx, hrx⟩
          · exact ih lbl parts base rest module1 out1 seen1 r hrest vis n hmem' hpub

/-- A public external module declaration whose resolution fails makes
`collect_module_items` return an error. -/
theorem collectModuleItems_unresolved_aborts (fs : FS) (fuel : Nat) (lbl : String)
    (parts : List String) (base : FsPath) (items : List Item) (out : List ExtractModule)
    (seen : List FsPath) (vis : Visibility) (n : String) (e : String)
    (hmem : Item.modItem vis n none ∈ items) (hpub : isPublic vis = true)
    (herr : resolveChildModuleFile fs base n = .error e) :
    ∃ e', collectModuleItems fs fuel lbl parts base items out seen = .error e' := by
  cases fuel with
  | zero => exact ⟨_, rfl⟩
  | succ fuel =>
      cases hres : collectModuleItems fs (fuel + 1) lbl parts base items out seen with
      | error e' => exact ⟨e', rfl⟩
      | ok r =>
          exfalso
          have h' :
              (match collectItemsGo fs fuel lbl parts base items (emptyModule lbl parts)
                  out seen with
              | Except.error e => Except.error (α := List ExtractModule × List FsPath) e
              | Except.ok (m, out1, seen1) =>
                  Except.ok (out1 ++ [sortPendingMethods m], seen1)) =
                Except.ok r := hres
          cases hc : collectItemsGo fs fuel lbl parts base items (emptyModule lbl parts)
              out seen with
          | error e2 => rw [hc] at h'; exact Except.noConfusion h'
          | ok s =>
              obtain ⟨cf, hcf⟩ := collectItemsGo_resolves fs fuel lbl parts base items
                (emptyModule lbl parts) out seen s hc vis n hmem hpub
              rw [herr] at hcf
              exact Except.noConfusion hcf

/-- **C3**: a public external module declaration is resolved by trying the
sibling file `<name>.rs` first, then the subdirectory file
`<name>/mod.rs`, the first match winning; when neither exists, resolution
fails, and a failing resolution anywhere in a file's items makes the whole
collection call return an error (the `Except` result carries no partial
output). -/
theorem resolve_child_module_order_and_fatal :
    (∀ fs base n, fs.pathExists (base ++ [n ++ ".rs"]) = true →
        resolveChildModuleFile fs base n = .ok (base ++ [n ++ ".rs"])) ∧
    (∀ fs base n, fs.pathExists (base ++ [n ++ ".rs"]) = false →
        fs.pathExists (base ++ [n, "mod.rs"]) = true →
        resolveChildModuleFile fs base n = .ok (base ++ [n, "mod.rs"])) ∧
    (∀ fs base n, fs.pathExists (base ++ [n ++ ".rs"]) = false →
        fs.pathExists (base ++ [n, "mod.rs"]) = false →
        ∃ e, resolveChildModuleFile fs base n = .error e) ∧
    (∀ fs fuel lbl parts base items out seen vis n e,
        Item.modItem vis n none ∈ items → isPublic vis = true →
        resolveChildModuleFile fs base n = .error e →
        ∃ e', collectModuleItems fs fuel lbl parts base items out seen = .error e') ∧
    (∀ fs fuel p parts out seen c items vis n e,
        fs.canon p = some c → c ∉ seen → findEntry fs.entries c = some items →
        Item.modItem vis n none ∈ items → isPublic vis = true →
        resolveChildModuleFile fs (moduleBaseDirForFile c) n = .error e →
        ∃ e', collectModuleFile fs fuel p parts out seen = .error e') := by
  refine ⟨?_, ?_, ?_, ?_, ?_⟩
  · intro fs base n h
    simp [resolveChildModuleFile, h]
  · intro fs base n h1 h2
    simp [resolveChildModuleFile, h1, h2]
  · intro fs base n h1 h2
    exact ⟨"Could not resolve pub mod " ++ n ++ " from base directory " ++
      pathToString base ++ ".", by simp [resolveChildModuleFile, h1, h2]⟩
  · intro fs fuel lbl parts base items out seen vis n e hmem hpub herr
    exact collectModuleItems_unresolved_aborts fs fuel lbl parts base items out seen
      vis n e hmem hpub herr
  · intro fs fuel p parts out seen c items vis n e hcan hseen hfind hmem hpub herr
    cases fuel with
    | zero => exact ⟨_, rfl⟩
    | succ fuel =>
        cases hres : collectModuleFile fs (fuel + 1) p parts out seen with
        | error e' => exact ⟨e', rfl⟩
        | ok r =>
            exfalso
            obtain ⟨out', seen'⟩ := r
            have h' :
                (match fs.canon p with
                | none =>
                    Except.error (α := List ExtractModule × List FsPath)
                      ("Failed to canonicalize module path " ++ pathToString p)
                | some canonical =>
                    if canonical ∈ seen then Except.ok (out, seen)
                    else
                      match findEntry fs.entries canonical with
                      | none =>
                          Except.error (α := List ExtractModule × List FsPath)
                            ("Failed to read module file " ++ pathToString canonical)
                      | some fileItems =>
                          collectModuleItems fs fuel (pathToString canonical) parts
                            (moduleBaseDirForFile canonical) fileItems out
                            (canonical :: seen)) =
                  Except.ok (out', seen') := hres
            rw [hcan] at h'
            have h'' :
                (if c ∈ seen then Except.ok (out, seen)
                 else
                   match findEntry fs.entries c with
                   | none =>
                       Except.error (α := List ExtractModule × List FsPath)
                         ("Failed to read module file " ++ pathToString c)
                   | some fileItems =>
                       collectModuleItems fs fuel (pathToString c) parts
                         (moduleBaseDirForFile c) fileItems out (c :: seen)) =
                  Except.ok (out', seen') := h'
            rw [if_neg hseen, hfind] at h''
            have h3 : collectModuleItems fs fuel (pathToString c) parts
                (moduleBaseDirForFile c) items out (c :: seen) =
                  Except.ok (out', seen') := h''
            obtain ⟨e', he'⟩ := collectModuleItems_unresolved_aborts fs fuel
              (pathToString c) parts (moduleBaseDirForFile c) items out (c :: seen) vis n e
              hmem hpub herr
            rw [he'] at h3
            exact Except.noConfusion h3

/-! ### The visited-file dedup invariant (claim C2)

A ghost visit log records, for each file whose body was processed, its
canonical path and the module-path parts of the visit.  The invariant
below is established for all three walker functions at once. -/

/-- One entry per file visit: canonical path and visit parts. -/
abbrev VisitLog := List (FsPath × List String)

/-- The log is consistent with the visited set: the final set is the
logged canonicals (in reverse visit order) on top of the initial set, all
logged canonicals denote stored files, none was visited before, and no
file is logged twice. -/
def LogOk (fs : FS) (seen seen' : List FsPath) (log : VisitLog) : Prop :=
  seen' = (log.map Prod.fst).reverse ++ seen ∧
  (∀ cq, cq ∈ log → (findEntry fs.entries cq.1).isSome) ∧
  (log.map Prod.fst).Nodup ∧
  (∀ cx, cx ∈ log.map Prod.fst → cx ∉ seen)

/-- How many new records carry a given visit's file string and parts. -/
def visitRecordCount (new : List ExtractModule) (c : FsPath) (q : List String) : Nat :=
  new.countP (fun r => decide (r.file = pathToString c ∧ r.parts = q))

/-- A record accounted for by some visit in the log: it carries that
visit's file string, with the visit's parts or a proper extension of them
(an inline module of that file). -/
def LogOrigin (log : VisitLog) (r : ExtractModule) : Prop :=
  ∃ cq, cq ∈ log ∧ r.file = pathToString cq.1 ∧
    (r.parts = cq.2 ∨ ∃ ext, ext ≠ [] ∧ r.parts = cq.2 ++ ext)

/-- A record produced while the item loop runs for label `lbl` below
`parts`: either an inline record of the current file (parts properly
extended) or a record of some visited child file. -/
def GoOrigin (lbl : String) (parts : List String) (log : VisitLog)
    (r : ExtractModule) : Prop :=
  (r.file = lbl ∧ ∃ ext, ext ≠ [] ∧ r.parts = parts ++ ext) ∨ LogOrigin log r

/-- As `GoOrigin`, but `collect_module_items` additionally pushes the
file's own record at exactly `parts`. -/
def ItemsOrigin (lbl : String) (parts : List String) (log : VisitLog)
    (r : ExtractModule) : Prop :=
  (r.file = lbl ∧ (r.parts = parts ∨ ∃ ext, ext ≠ [] ∧ r.parts = parts ++ ext)) ∨
    LogOrigin log r

/-- The current file label denotes an already-visited stored file. -/
def SeenLabel (fs : FS) (lbl : String) (seen : List FsPath) : Prop :=
  ∃ c0, (findEntry fs.entries c0).isSome ∧ c0 ∈ seen ∧ lbl = pathToString c0

theorem findEntry_mem_keys {A : Type} :
    ∀ (l : List (FsPath × A)) (p : FsPath), (findEntry l p).isSome = true →
      p ∈ l.map Prod.fst := by
  intro l
  induction l with
  | nil => intro p h; simp [findEntry] at h
  | cons e rest ih =>
      intro p h
      rw [List.map_cons]
      by_cases he : e.1 = p
      · rw [← he]
        exact List.mem_cons_self _ _
      · have h' : (findEntry rest p).isSome = true := by
          simpa [findEntry, he] using h
        exact List.mem_cons_of_mem _ (ih p h')

/-- On a well-formed filesystem, the string form determines the stored
path. -/
theorem FS.Wf.label_inj {fs : FS} (hwf : fs.Wf) {c₁ c₂ : FsPath}
    (h₁ : (findEntry fs.entries c₁).isSome = true)
    (h₂ : (findEntry fs.entries c₂).isSome = true)
    (heq : pathToString c₁ = pathToString c₂) : c₁ = c₂ := by
  have hwf' : (fs.entries.map (fun e => pathToString e.1)).Nodup := hwf
  have hm₁ := findEntry_mem_keys fs.entries c₁ h₁
  have hm₂ := findEntry_mem_keys fs.entries c₂ h₂
  rcases List.mem_map.mp hm₁ with ⟨e₁, he₁, hfst₁⟩
  rcases List.mem_map.mp hm₂ with ⟨e₂, he₂, hfst₂⟩
  have heq' : pathToString e₁.1 = pathToString e₂.1 := by
    rw [hfst₁, hfst₂]
    exact heq
  have : e₁ = e₂ := List.inj_on_of_nodup_map hwf' he₁ he₂ heq'
  rw [← hfst₁, ← hfst₂, this]

theorem list_append_ne_self {α : Type} (l : List α) {ext : List α} (h : ext ≠ []) :
    l ++ ext ≠ l := by
  intro hc
  have hlen := congrArg List.length hc
  simp only [List.length_append] at hlen
  have : ext.length = 0 := by omega
  exact h (List.length_eq_zero.mp this)

theorem visitRecordCount_append (new₁ new₂ : List ExtractModule) (c : FsPath)
    (q : List String) :
    visitRecordCount (new₁ ++ new₂) c q =
      visitRecordCount new₁ c q + visitRecordCount new₂ c q :=
  List.countP_append _ _ _

theorem visitRecordCount_zero {new : List ExtractModule} {c : FsPath}
    (h : ∀ r, r ∈ new → r.file ≠ pathToString c) (q : List String) :
    visitRecordCount new c q = 0 := by
  rw [visitRecordCount, List.countP_eq_zero]
  intro r hr
  simp [h r hr]

theorem LogOk.append {fs : FS} {seen seen1 seen' : List FsPath} {log1 log2 : VisitLog}
    (h1 : LogOk fs seen seen1 log1) (h2 : LogOk fs seen1 seen' log2) :
    LogOk fs seen seen' (log1 ++ log2) := by
  obtain ⟨e1, s1, n1, d1⟩ := h1
  obtain ⟨e2, s2, n2, d2⟩ := h2
  have hsub : ∀ x : FsPath, x ∈ seen → x ∈ seen1 := by
    intro x hx
    rw [e1]
    exact List.mem_append_right _ hx
  have hlog1sub : ∀ x : FsPath, x ∈ log1.map Prod.fst → x ∈ seen1 := by
    intro x hx
    rw [e1]
    exact List.mem_append_left _ (List.mem_reverse.mpr hx)
  refine ⟨?_, ?_, ?_, ?_⟩
  · rw [e2, e1, List.map_append, List.reverse_append, List.append_assoc]
  · intro cq hcq
    rcases List.mem_append.mp hcq with h | h
    · exact s1 cq h
    · exact s2 cq h
  · rw [List.map_append, List.nodup_append]
    refine ⟨n1, n2, ?_⟩
    intro a ha hb
    exact d2 a hb (hlog1sub a ha)
  · intro cx hcx
    rcases List.mem_append.mp (by simpa [List.map_append] using hcx :
        cx ∈ log1.map Prod.fst ++ log2.map Prod.fst) with h | h
    · exact d1 cx h
    · intro hcs
      exact d2 cx h (hsub cx hcs)

/-- No record in `new` can carry the file string of a path `c` that is
distinct from the current file and from every logged visit. -/
theorem visitRecordCount_zero_fresh {fs : FS} (hwf : fs.Wf) {lbl : String}
    {new : List ExtractModule} {log : VisitLog} {c0 c : FsPath}
    (hc0s : (findEntry fs.entries c0).isSome = true) (hlbl : lbl = pathToString c0)
    (htag : ∀ r, r ∈ new →
      r.file = lbl ∨ ∃ cq, cq ∈ log ∧ r.file = pathToString cq.1)
    (hlogsome : ∀ cq, cq ∈ log → (findEntry fs.entries cq.1).isSome = true)
    (hcs : (findEntry fs.entries c).isSome = true) (hne0 : c ≠ c0)
    (hnelog : ∀ cq, cq ∈ log → c ≠ cq.1) (q : List String) :
    visitRecordCount new c q = 0 := by
  apply visitRecordCount_zero
  intro r hr
  rcases htag r hr with hfile | ⟨cq, hcqm, hfile⟩
  · rw [hfile, hlbl]
    intro hcontra
    exact hne0 (hwf.label_inj hc0s hcs hcontra).symm
  · rw [hfile]
    intro hcontra
    exact hnelog cq hcqm (hwf.label_inj (hlogsome cq hcqm) hcs hcontra).symm

theorem goOrigin_file_tag {lbl : String} {parts : List String} {log : VisitLog}
    {r : ExtractModule} (h : GoOrigin lbl parts log r) :
    r.file = lbl ∨ ∃ cq, cq ∈ log ∧ r.file = pathToString cq.1 := by
  rcases h with ⟨hf, _⟩ | ⟨cq, hm, hf, _⟩
  · exact Or.inl hf
  · exact Or.inr ⟨cq, hm, hf⟩

theorem itemsOrigin_file_tag {lbl : String} {parts : List String} {log : VisitLog}
    {r : ExtractModule} (h : ItemsOrigin lbl parts log r) :
    r.file = lbl ∨ ∃ cq, cq ∈ log ∧ r.file = pathToString cq.1 := by
  rcases h with ⟨hf, _⟩ | ⟨cq, hm, hf, _⟩
  · exact Or.inl hf
  · exact Or.inr ⟨cq, hm, hf⟩

theorem logOrigin_file_tag (lbl : String) {log : VisitLog}
    {r : ExtractModule} (h : LogOrigin log r) :
    r.file = lbl ∨ ∃ cq, cq ∈ log ∧ r.file = pathToString cq.1 := by
  rcases h with ⟨cq, hm, hf, _⟩
  exact Or.inr ⟨cq, hm, hf⟩

/-- The dedup invariant of the module walk: a successful run appends a
batch of records accounted for by a duplicate-free log of fresh file
visits, the visited set grows by exactly the logged canonical paths, and
each logged visit owns exactly one record carrying its file string and
visit parts. -/
theorem walk_dedup_inv (fs : FS) (hwf : fs.Wf) : ∀ fuel : Nat,
    (∀ lbl parts base items module out seen m' out' seen',
      collectItemsGo fs fuel lbl parts base items module out seen = .ok (m', out', seen') →
      SeenLabel fs lbl seen →
      ∃ new log, out' = out ++ new ∧ LogOk fs seen seen' log ∧
        (∀ cq, cq ∈ log → visitRecordCount new cq.1 cq.2 = 1) ∧
        (∀ r, r ∈ new → GoOrigin lbl parts log r)) ∧
    (∀ lbl parts base items out seen out' seen',
      collectModuleItems fs fuel lbl parts base items out seen = .ok (out', seen') →
      SeenLabel fs lbl seen →
      ∃ new log, out' = out ++ new ∧ LogOk fs seen seen' log ∧
        (∀ cq, cq ∈ log → visitRecordCount new cq.1 cq.2 = 1) ∧
        (new.countP (fun r => decide (r.file = lbl ∧ r.parts = parts)) = 1) ∧
        (∀ r, r ∈ new → ItemsOrigin lbl parts log r)) ∧
    (∀ p parts out seen out' seen',
      collectModuleFile fs fuel p parts out seen = .ok (out', seen') →
      ∃ new log, out' = out ++ new ∧ LogOk fs seen seen' log ∧
        (∀ cq, cq ∈ log → visitRecordCount new cq.1 cq.2 = 1) ∧
        (∀ r, r ∈ new → LogOrigin log r)) := by
  intro fuel
  induction fuel with
  | zero =>
      refine ⟨?_, ?_, ?_⟩
      · intro lbl parts base items module out seen m' out' seen' h
        exact Except.noConfusion h
      · intro lbl parts base items out seen out' seen' h
        exact Except.noConfusion h
      · intro p parts out seen out' seen' h
        exact Except.noConfusion h
  | succ fuel ih =>
      obtain ⟨ihGo, ihItems, ihFile⟩ := ih
      refine ⟨?_, ?_, ?_⟩
      · -- the item loop
        intro lbl parts base items module out seen m' out' seen' h hsl
        cases items with
        | nil =>
            have h' : Except.ok (ε := String) (module, out, seen) = .ok (m', out', seen') := h
            simp only [Except.ok.injEq, Prod.mk.injEq] at h'
            refine ⟨[], [], ?_, ⟨?_, ?_, ?_, ?_⟩, ?_, ?_⟩
            · rw [← h'.2.1]; simp
            · rw [← h'.2.2]; simp
            · intro cq hcq; simp at hcq
            · simp
            · intro cx hcx; simp at hcx
            · intro cq hcq; simp at hcq
            · intro r hr; simp at hr
        | cons item rest =>
            obtain ⟨module1, out1, seen1, hrest, hmod1, hstep⟩ :=
              collectItemsGo_cons fs fuel lbl parts base item rest module out seen
                (m', out', seen') h
            rcases hstep with ⟨ho, hs, _⟩ | ⟨vis, n, inner, hEq, hpub, hc⟩ |
                ⟨vis, n, cf, hEq, hpub, hr, hc⟩
            · rw [ho, hs] at hrest
              exact ihGo lbl parts base rest module1 out seen m' out' seen' hrest hsl
            · -- public inline module: child items walk, then the rest
              obtain ⟨new1, log1, hout1, hlo1, hcnt1, hown1, horg1⟩ :=
                ihItems lbl (parts ++ [n]) (base ++ [n]) inner out seen out1 seen1 hc hsl
              obtain ⟨c0, hc0s, hc0m, hc0l⟩ := hsl
              have hc0m1 : c0 ∈ seen1 := by
                rw [hlo1.1]
                exact List.mem_append_right _ hc0m
              obtain ⟨new2, log2, hout2, hlo2, hcnt2, horg2⟩ :=
                ihGo lbl parts base rest module1 out1 seen1 m' out' seen' hrest
                  ⟨c0, hc0s, hc0m1, hc0l⟩
              refine ⟨new1 ++ new2, log1 ++ log2, ?_, hlo1.append hlo2, ?_, ?_⟩
              · rw [hout2, hout1, List.append_assoc]
              · intro cq hcq
                rw [visitRecordCount_append]
                rcases List.mem_append.mp hcq with hcq1 | hcq2
                · rw [hcnt1 cq hcq1]
                  have hfresh1 : cq.1 ∈ seen1 := by
                    rw [hlo1.1]
                    exact List.mem_append_left _ (List.mem_reverse.mpr
                      (List.mem_map.mpr ⟨cq, hcq1, rfl⟩))
                  have hz : visitRecordCount new2 cq.1 cq.2 = 0 := by
                    refine visitRecordCount_zero_fresh hwf hc0s hc0l
                      (fun r hr => goOrigin_file_tag (horg2 r hr)) hlo2.2.1
                      (hlo1.2.1 cq hcq1) ?_ ?_ cq.2
                    · intro hcc
                      exact hlo1.2.2.2 cq.1
                        (List.mem_map.mpr ⟨cq, hcq1, rfl⟩) (hcc ▸ hc0m)
                    · intro cq2 hcq2 hcc
                      exact hlo2.2.2.2 cq2.1
                        (List.mem_map.mpr ⟨cq2, hcq2, rfl⟩) (hcc ▸ hfresh1)
                  omega
                · rw [hcnt2 cq hcq2]
                  have hfresh2 : cq.1 ∉ seen1 := hlo2.2.2.2 cq.1
                    (List.mem_map.mpr ⟨cq, hcq2, rfl⟩)
                  have hz : visitRecordCount new1 cq.1 cq.2 = 0 := by
                    refine visitRecordCount_zero_fresh hwf hc0s hc0l
                      (fun r hr => itemsOrigin_file_tag (horg1 r hr)) hlo1.2.1
                      (hlo2.2.1 cq hcq2) ?_ ?_ cq.2
                    · intro hcc
                      exact hfresh2 (hcc ▸ hc0m1)
                    · intro cq1 hcq1 hcc
                      apply hfresh2
                      rw [hcc, hlo1.1]
                      exact List.mem_append_left _ (List.mem_reverse.mpr
                        (List.mem_map.mpr ⟨cq1, hcq1, rfl⟩))
                  omega
              · intro r hr
                rcases List.mem_append.mp hr with hr1 | hr2
                · rcases horg1 r hr1 with ⟨hfile, hparts⟩ | ⟨cq, hcqm, hf, hp⟩
                  · left
                    refine ⟨hfile, ?_⟩
                    rcases hparts with hp | ⟨ext, hne, hp⟩
                    · exact ⟨[n], by simp, hp⟩
                    · exact ⟨[n] ++ ext, by simp, by rw [hp, List.append_assoc]⟩
                  · exact Or.inr ⟨cq, List.mem_append_left _ hcqm, hf, hp⟩
                · rcases horg2 r hr2 with hl | ⟨cq, hcqm, hf, hp⟩
                  · exact Or.inl hl
                  · exact Or.inr ⟨cq, List.mem_append_right _ hcqm, hf, hp⟩
            · -- public external module: child file walk, then the rest
              obtain ⟨new1, log1, hout1, hlo1, hcnt1, horg1⟩ :=
                ihFile cf (parts ++ [n]) out seen out1 seen1 hc
              obtain ⟨c0, hc0s, hc0m, hc0l⟩ := hsl
              have hc0m1 : c0 ∈ seen1 := by
                rw [hlo1.1]
                exact List.mem_append_right _ hc0m
              obtain ⟨new2, log2, hout2, hlo2, hcnt2, horg2⟩ :=
                ihGo lbl parts base rest module1 out1 seen1 m' out' seen' hrest
                  ⟨c0, hc0s, hc0m1, hc0l⟩
              refine ⟨new1 ++ new2, log1 ++ log2, ?_, hlo1.append hlo2, ?_, ?_⟩
              · rw [hout2, hout1, List.append_assoc]
              · intro cq hcq
                rw [visitRecordCount_append]
                rcases List.mem_append.mp hcq with hcq1 | hcq2
                · rw [hcnt1 cq hcq1]
                  have hfresh1 : cq.1 ∈ seen1 := by
                    rw [hlo1.1]
                    exact List.mem_append_left _ (List.mem_reverse.mpr
                      (List.mem_map.mpr ⟨cq, hcq1, rfl⟩))
                  have hz : visitRecordCount new2 cq.1 cq.2 = 0 := by
                    refine visitRecordCount_zero_fresh hwf hc0s hc0l
                      (fun r hr => goOrigin_file_tag (horg2 r hr)) hlo2.2.1
                      (hlo1.2.1 cq hcq1) ?_ ?_ cq.2
                    · intro hcc
                      exact hlo1.2.2.2 cq.1
                        (List.mem_map.mpr ⟨cq, hcq1, rfl⟩) (hcc ▸ hc0m)
                    · intro cq2 hcq2 hcc
                      exact hlo2.2.2.2 cq2.1
                        (List.mem_map.mpr ⟨cq2, hcq2, rfl⟩) (hcc ▸ hfresh1)
                  omega
                · rw [hcnt2 cq hcq2]
                  have hfresh2 : cq.1 ∉ seen1 := hlo2.2.2.2 cq.1
                    (List.mem_map.mpr ⟨cq, hcq2, rfl⟩)
                  have hz : visitRecordCount new1 cq.1 cq.2 = 0 := by
                    refine visitRecordCount_zero_fresh hwf hc0s hc0l
                      (fun r hr => logOrigin_file_tag lbl (horg1 r hr)) hlo1.2.1
                      (hlo2.2.1 cq hcq2) ?_ ?_ cq.2
                    · intro hcc
                      exact hfresh2 (hcc ▸ hc0m1)
                    · intro cq1 hcq1 hcc
                      apply hfresh2
                      rw [hcc, hlo1.1]
                      exact List.mem_append_left _ (List.mem_reverse.mpr
                        (List.mem_map.mpr ⟨cq1, hcq1, rfl⟩))
                  omega
              · intro r hr
                rcases List.mem_append.mp hr with hr1 | hr2
                · obtain ⟨cq, hcqm, hf, hp⟩ := horg1 r hr1
                  exact Or.inr ⟨cq, List.mem_append_left _ hcqm, hf, hp⟩
                · rcases horg2 r hr2 with hl | ⟨cq, hcqm, hf, hp⟩
                  · exact Or.inl hl
                  · exact Or.inr ⟨cq, List.mem_append_right _ hcqm, hf, hp⟩
      · -- collect_module_items
        intro lbl parts base items out seen out' seen' h hsl
        have h' :
            (match collectItemsGo fs fuel lbl parts base items (emptyModule lbl parts)
                out seen with
            | Except.error e => Except.error (α := List ExtractModule × List FsPath) e
            | Except.ok (m, out1, seen1) =>
                Except.ok (out1 ++ [sortPendingMethods m], seen1)) =
              Except.ok (out', seen') := h
        cases hc : collectItemsGo fs fuel lbl parts base items (emptyModule lbl parts)
            out seen with
        | error e => rw [hc] at h'; exact Except.noConfusion h'
        | ok r =>
            obtain ⟨m, out1, seen1⟩ := r
            rw [hc] at h'
            simp only [Except.ok.injEq, Prod.mk.injEq] at h'
            obtain ⟨newG, log, houtG, hlo, hcnt, horg⟩ :=
              ihGo lbl parts base items (emptyModule lbl parts) out seen m out1 seen1
                hc hsl
            have hm := collectItemsGo_module fs fuel lbl parts base items
              (emptyModule lbl parts) out seen m out1 seen1 hc
            have hmf : (sortPendingMethods m).file = lbl := by
              rw [sortPendingMethods_file, hm, buildGo_file]
              rfl
            have hmp : (sortPendingMethods m).parts = parts := by
              rw [sortPendingMethods_parts, hm, buildGo_parts]
              rfl
            obtain ⟨c0, hc0s, hc0m, hc0l⟩ := hsl
            refine ⟨newG ++ [sortPendingMethods m], log, ?_, ?_, ?_, ?_, ?_⟩
            · rw [← h'.1, houtG, List.append_assoc]
            · obtain ⟨e1, s1, n1, d1⟩ := hlo
              exact ⟨by rw [← h'.2]; exact e1, s1, n1, d1⟩
            · intro cq hcq
              rw [visitRecordCount_append, hcnt cq hcq]
              have hz : visitRecordCount [sortPendingMethods m] cq.1 cq.2 = 0 := by
                apply visitRecordCount_zero
                intro r hr
                rw [List.mem_singleton] at hr
                rw [hr, hmf, hc0l]
                intro hcontra
                have : c0 = cq.1 :=
                  hwf.label_inj hc0s (hlo.2.1 cq hcq) hcontra
                exact hlo.2.2.2 cq.1 (List.mem_map.mpr ⟨cq, hcq, rfl⟩) (this ▸ hc0m)
              omega
            · rw [List.countP_append]
              have h0 : newG.countP
                  (fun r => decide (r.file = lbl ∧ r.parts = parts)) = 0 := by
                rw [List.countP_eq_zero]
                intro r hr
                rcases horg r hr with ⟨hfile, ext, hne, hp⟩ | ⟨cq, hcqm, hf, _⟩
                · simp only [decide_eq_true_eq, not_and]
                  intro _
                  rw [hp]
                  exact fun hcontra => list_append_ne_self parts hne hcontra
                · simp only [decide_eq_true_eq, not_and]
                  intro hfl
                  exfalso
                  rw [hf, hc0l] at hfl
                  have : cq.1 = c0 := hwf.label_inj (hlo.2.1 cq hcqm) hc0s hfl
                  exact hlo.2.2.2 cq.1 (List.mem_map.mpr ⟨cq, hcqm, rfl⟩) (this ▸ hc0m)
              have h1 : ([sortPendingMethods m]).countP
                  (fun r => decide (r.file = lbl ∧ r.parts = parts)) = 1 := by
                simp [List.countP_cons, hmf, hmp]
              omega
            · intro r hr
              rcases List.mem_append.mp hr with hr1 | hr2
              · rcases horg r hr1 with ⟨hfile, ext, hne, hp⟩ | ⟨cq, hcqm, hf, hp⟩
                · exact Or.inl ⟨hfile, Or.inr ⟨ext, hne, hp⟩⟩
                · exact Or.inr ⟨cq, hcqm, hf, hp⟩
              · rw [List.mem_singleton] at hr2
                rw [hr2]
                exact Or.inl ⟨hmf, Or.inl hmp⟩
      · -- collect_module_file
        intro p parts out seen out' seen' h
        have h' :
            (match fs.canon p with
            | none =>
                Except.error (α := List ExtractModule × List FsPath)
                  ("Failed to canonicalize module path " ++ pathToString p)
            | some canonical =>
                if canonical ∈ seen then Except.ok (out, seen)
                else
                  match findEntry fs.entries canonical with
                  | none =>
                      Except.error (α := List ExtractModule × List FsPath)
                        ("Failed to read module file " ++ pathToString canonical)
                  | some fileItems =>
                      collectModuleItems fs fuel (pathToString canonical) parts
                        (moduleBaseDirForFile canonical) fileItems out
                        (canonical :: seen)) =
              Except.ok (out', seen') := h
        cases hcan : fs.canon p with
        | none => rw [hcan] at h'; exact Except.noConfusion h'
        | some c =>
            rw [hcan] at h'
            have h'' :
                (if c ∈ seen then Except.ok (out, seen)
                 else
                   match findEntry fs.entries c with
                   | none =>
                       Except.error (α := List ExtractModule × List FsPath)
                         ("Failed to read module file " ++ pathToString c)
                   | some fileItems =>
                       collectModuleItems fs fuel (pathToString c) parts
                         (moduleBaseDirForFile c) fileItems out (c :: seen)) =
                  Except.ok (out', seen') := h'
            by_cases hmem : c ∈ seen
            · rw [if_pos hmem] at h''
              simp only [Except.ok.injEq, Prod.mk.injEq] at h''
              refine ⟨[], [], ?_, ⟨?_, ?_, ?_, ?_⟩, ?_, ?_⟩
              · rw [← h''.1]; simp
              · rw [← h''.2]; simp
              · intro cq hcq; simp at hcq
              · simp
              · intro cx hcx; simp at hcx
              · intro cq hcq; simp at hcq
              · intro r hr; simp at hr
            · rw [if_neg hmem] at h''
              cases hfind : findEntry fs.entries c with
              | none => rw [hfind] at h''; exact Except.noConfusion h''
              | some fileItems =>
                  rw [hfind] at h''
                  have h3 : collectModuleItems fs fuel (pathToString c) parts
                      (moduleBaseDirForFile c) fileItems out (c :: seen) =
                        Except.ok (out', seen') := h''
                  have hcsome : (findEntry fs.entries c).isSome = true := by
                    rw [hfind]
                    rfl
                  obtain ⟨new, log1, hout, hlo, hcnt, hown, horg⟩ :=
                    ihItems (pathToString c) parts (moduleBaseDirForFile c) fileItems
                      out (c :: seen) out' seen' h3
                      ⟨c, hcsome, List.mem_cons_self c seen, rfl⟩
                  refine ⟨new, (c, parts) :: log1, hout, ⟨?_, ?_, ?_, ?_⟩, ?_, ?_⟩
                  · rw [hlo.1, List.map_cons, List.reverse_cons, List.append_assoc]
                    rfl
                  · intro cq hcq
                    rcases List.mem_cons.mp hcq with hq | hq
                    · rw [hq]
                      exact hcsome
                    · exact hlo.2.1 cq hq
                  · rw [List.map_cons]
                    refine List.nodup_cons.mpr ⟨?_, hlo.2.2.1⟩
                    intro hcm
                    exact hlo.2.2.2 c hcm (List.mem_cons_self c seen)
                  · intro cx hcx
                    rcases List.mem_cons.mp (by simpa using hcx :
                        cx ∈ c :: log1.map Prod.fst) with hq | hq
                    · rw [hq]
                      exact hmem
                    · intro hcs
                      exact hlo.2.2.2 cx hq (List.mem_cons_of_mem _ hcs)
                  · intro cq hcq
                    rcases List.mem_cons.mp hcq with hq | hq
                    · rw [hq]
                      exact hown
                    · exact hcnt cq hq
                  · intro r hr
                    rcases horg r hr with ⟨hfile, hparts⟩ | ⟨cq, hcqm, hf, hp⟩
                    · exact ⟨(c, parts), List.mem_cons_self _ _, hfile, hparts⟩
                    · exact ⟨cq, List.mem_cons_of_mem _ hcqm, hf, hp⟩

/-- **C2**: the visited-file set is keyed by canonical path — two spellings
with the same canonical form give identical runs; re-encountering a
visited file short-circuits to success with the output and visited set
untouched; and on a well-formed filesystem every successful walk visits
each canonical file at most once (the visit log is duplicate-free and
fresh), with exactly one record in the output carrying that file's string
form and its visit parts. -/
theorem collect_module_file_visits_once :
    (∀ fs fuel p₁ p₂ c parts out seen, fs.canon p₁ = some c → fs.canon p₂ = some c →
        collectModuleFile fs fuel p₁ parts out seen =
          collectModuleFile fs fuel p₂ parts out seen) ∧
    (∀ fs fuel p c parts out seen, fs.canon p = some c → c ∈ seen →
        collectModuleFile fs (fuel + 1) p parts out seen = .ok (out, seen)) ∧
    (∀ fs fuel p parts out seen out' seen', fs.Wf →
        collectModuleFile fs fuel p parts out seen = .ok (out', seen') →
        ∃ new log, out' = out ++ new ∧ LogOk fs seen seen' log ∧
          (∀ cq, cq ∈ log → visitRecordCount new cq.1 cq.2 = 1) ∧
          (∀ r, r ∈ new → LogOrigin log r)) := by
  refine ⟨?_, ?_, ?_⟩
  · intro fs fuel p₁ p₂ c parts out seen h₁ h₂
    cases fuel with
    | zero => rfl
    | succ fuel =>
        have e₁ : collectModuleFile fs (fuel + 1) p₁ parts out seen =
            (if c ∈ seen then Except.ok (out, seen)
             else
               match findEntry fs.entries c with
               | none =>
                   Except.error (α := List ExtractModule × List FsPath)
                     ("Failed to read module file " ++ pathToString c)
               | some fileItems =>
                   collectModuleItems fs fuel (pathToString c) parts
                     (moduleBaseDirForFile c) fileItems out (c :: seen)) := by
          rw [show collectModuleFile fs (fuel + 1) p₁ parts out seen =
              (match fs.canon p₁ with
              | none =>
                  Except.error (α := List ExtractModule × List FsPath)
                    ("Failed to canonicalize module path " ++ pathToString p₁)
              | some canonical =>
                  if canonical ∈ seen then Except.ok (out, seen)
                  else
                    match findEntry fs.entries canonical with
                    | none =>
                        Except.error (α := List ExtractModule × List FsPath)
                          ("Failed to read module file " ++ pathToString canonical)
                    | some fileItems =>
                        collectModuleItems fs fuel (pathToString canonical) parts
                          (moduleBaseDirForFile canonical) fileItems out
                          (canonical :: seen)) from rfl, h₁]
        have e₂ : collectModuleFile fs (fuel + 1) p₂ parts out seen =
            (if c ∈ seen then Except.ok (out, seen)
             else
               match findEntry fs.entries c with
               | none =>
                   Except.error (α := List ExtractModule × List FsPath)
                     ("Failed to read module file " ++ pathToString c)
               | some fileItems =>
                   collectModuleItems fs fuel (pathToString c) parts
                     (moduleBaseDirForFile c) fileItems out (c :: seen)) := by
          rw [show collectModuleFile fs (fuel + 1) p₂ parts out seen =
              (match fs.canon p₂ with
              | none =>
                  Except.error (α := List ExtractModule × List FsPath)
                    ("Failed to canonicalize module path " ++ pathToString p₂)
              | some canonical =>
                  if canonical ∈ seen then Except.ok (out, seen)
                  else
                    match findEntry fs.entries canonical with
                    | none =>
                        Except.error (α := List ExtractModule × List FsPath)
                          ("Failed to read module file " ++ pathToString canonical)
                    | some fileItems =>
                        collectModuleItems fs fuel (pathToString canonical) parts
                          (moduleBaseDirForFile canonical) fileItems out
                          (canonical :: seen)) from rfl, h₂]
        rw [e₁, e₂]
  · intro fs fuel p c parts out seen hcan hmem
    have e : collectModuleFile fs (fuel + 1) p parts out seen =
        (if c ∈ seen then Except.ok (out, seen)
         else
           match findEntry fs.entries c with
           | none =>
               Except.error (α := List ExtractModule × List FsPath)
                 ("Failed to read module file " ++ pathToString c)
           | some fileItems =>
               collectModuleItems fs fuel (pathToString c) parts
                 (moduleBaseDirForFile c) fileItems out (c :: seen)) := by
      rw [show collectModuleFile fs (fuel + 1) p parts out seen =
          (match fs.canon p with
          | none =>
              Except.error (α := List ExtractModule × List FsPath)
                ("Failed to canonicalize module path " ++ pathToString p)
          | some canonical =>
              if canonical ∈ seen then Except.ok (out, seen)
              else
                match findEntry fs.entries canonical with
                | none =>
                    Except.error (α := List ExtractModule × List FsPath)
                      ("Failed to read module file " ++ pathToString canonical)
                | some fileItems =>
                    collectModuleItems fs fuel (pathToString canonical) parts
                      (moduleBaseDirForFile canonical) fileItems out
                      (canonical :: seen)) from rfl, hcan]
    rw [e, if_pos hmem]
  · intro fs fuel p parts out seen out' seen' hwf h
    exact (walk_dedup_inv fs hwf fuel).2.2 p parts out seen out' seen' h

instance exceptDecEq {E A : Type} [DecidableEq E] [DecidableEq A] :
    DecidableEq (Except E A) := fun a b =>
  match a, b with
  | .ok x, .ok y =>
      if h : x = y then .isTrue (by rw [h])
      else .isFalse (by intro hc; cases hc; exact h rfl)
  | .error x, .error y =>
      if h : x = y then .isTrue (by rw [h])
      else .isFalse (by intro hc; cases hc; exact h rfl)
  | .ok _, .error _ => .isFalse (by intro hc; cases hc)
  | .error _, .ok _ => .isFalse (by intro hc; cases hc)

/-! ### Output ordering (claim C1) -/

/-- Modelled from the spec: the "dotted string form" of a module's path
segments ("modules are sorted by the dotted string form of their path
segments ... with file identity as a tie-break"). -/
def specDottedKey (m : ExtractModule) : String :=
  String.intercalate "." m.parts

/-- Modelled from the spec: the claimed comparator — dotted key first,
file identity as tie-break. -/
def SpecDottedLE (a b : ExtractModule) : Prop :=
  specDottedKey a < specDottedKey b ∨
    (specDottedKey a = specDottedKey b ∧ ¬ b.file < a.file)

instance : DecidableRel SpecDottedLE := fun a b =>
  @instDecidableOr _ _ (strLtDec (specDottedKey a) (specDottedKey b))
    (@instDecidableAnd _ _ (String.decEq (specDottedKey a) (specDottedKey b))
      (@instDecidableNot _ (strLtDec b.file a.file)))

theorem ModLE.refl (a : ExtractModule) : ModLE a a :=
  Or.inr ⟨rfl, lt_irrefl _⟩

theorem ModLE.antisymm_key {a b : ExtractModule} (h₁ : ModLE a b) (h₂ : ModLE b a) :
    moduleOrderKey a = moduleOrderKey b ∧ a.file = b.file := by
  rw [ModLE_iff] at h₁ h₂
  rcases h₁ with h₁ | ⟨hk₁, hf₁⟩
  · rcases h₂ with h₂ | ⟨hk₂, _⟩
    · exact absurd (lt_trans h₁ h₂) (lt_irrefl _)
    · exact absurd (hk₂ ▸ h₁) (lt_irrefl _)
  · rcases h₂ with h₂ | ⟨hk₂, hf₂⟩
    · exact absurd (hk₁ ▸ h₂) (lt_irrefl _)
    · exact ⟨hk₁, le_antisymm hf₁ hf₂⟩

/-- Two sorted lists that are permutations of each other and have
duplicate-free (segment-key, file) pairs are equal: the emitted order is
determined by the contents alone. -/
theorem sorted_perm_eq_of_nodup_keys :
    ∀ (l₁ l₂ : List ExtractModule), l₁.Perm l₂ → l₁.Sorted ModLE → l₂.Sorted ModLE →
      (l₁.map (fun m => (moduleOrderKey m, m.file))).Nodup → l₁ = l₂ := by
  intro l₁
  induction l₁ with
  | nil =>
      intro l₂ hp _ _ _
      exact hp.nil_eq
  | cons a t ih =>
      intro l₂ hp hs₁ hs₂ hnd
      cases l₂ with
      | nil => exact absurd hp.eq_nil (by simp)
      | cons b t₂ =>
          have hmem_b : b ∈ a :: t := hp.symm.subset (List.mem_cons_self b t₂)
          have hmem_a : a ∈ b :: t₂ := hp.subset (List.mem_cons_self a t)
          have hab1 : ModLE a b := by
            rcases List.mem_cons.mp hmem_b with hh | hh
            · rw [hh]
              exact ModLE.refl a
            · exact (List.sorted_cons.mp hs₁).1 b hh
          have hba1 : ModLE b a := by
            rcases List.mem_cons.mp hmem_a with hh | hh
            · rw [hh]
              exact ModLE.refl b
            · exact (List.sorted_cons.mp hs₂).1 a hh
          have hkey := ModLE.antisymm_key hab1 hba1
          have hab : a = b := by
            refine List.inj_on_of_nodup_map hnd (List.mem_cons_self a t) hmem_b ?_
            rw [Prod.mk.injEq]
            exact ⟨hkey.1, hkey.2⟩
          subst hab
          have hp' : t.Perm t₂ := hp.cons_inv
          rw [ih t₂ hp' (List.sorted_cons.mp hs₁).2 (List.sorted_cons.mp hs₂).2
            (by
              rw [List.map_cons] at hnd
              exact (List.nodup_cons.mp hnd).2)]

/-- **C1** (amended): the emitted modules are sorted by the comparator
the code uses — the `::`-joined string form of the path segments (the
root module, with empty parts, keys as the empty string, which is
minimal), with file identity as a tie-break; that comparator is a total,
transitive order; and any two sorted permutations with duplicate-free
keys coincide, so the output order is independent of on-disk or
declaration order. -/
theorem extract_modules_sorted_by_joined_key :
    (∀ fs fuel mp out, extractModules fs fuel mp = .ok out → out.Sorted ModLE) ∧
    (∀ a b : ExtractModule, ModLE a b ∨ ModLE b a) ∧
    (∀ a b c : ExtractModule, ModLE a b → ModLE b c → ModLE a c) ∧
    (∀ a b : ExtractModule, a.parts = [] → ¬ moduleOrderKey b < moduleOrderKey a) ∧
    (∀ l₁ l₂ : List ExtractModule, l₁.Perm l₂ → l₁.Sorted ModLE → l₂.Sorted ModLE →
      (l₁.map (fun m => (moduleOrderKey m, m.file))).Nodup → l₁ = l₂) := by
  refine ⟨?_, ?_, ?_, ?_, sorted_perm_eq_of_nodup_keys⟩
  · intro fs fuel mp out h
    cases mp with
    | nil => exact Except.noConfusion h
    | cons a rest =>
        have h' :
            (if fs.pathExists ((a :: rest).dropLast ++ ["src", "lib.rs"]) then
               match collectModuleFile fs fuel ((a :: rest).dropLast ++ ["src", "lib.rs"])
                   [] [] [] with
               | Except.error e => Except.error (α := List ExtractModule) e
               | Except.ok (modules, _) => Except.ok (modules.insertionSort ModLE)
             else
               Except.error ("Missing library root " ++
                 pathToString ((a :: rest).dropLast ++ ["src", "lib.rs"]) ++
                 " (expected src/lib.rs).")) = Except.ok out := h
        by_cases hex : fs.pathExists ((a :: rest).dropLast ++ ["src", "lib.rs"]) = true
        · rw [if_pos hex] at h'
          cases hc : collectModuleFile fs fuel ((a :: rest).dropLast ++ ["src", "lib.rs"])
              [] [] [] with
          | error e => rw [hc] at h'; exact Except.noConfusion h'
          | ok r =>
              obtain ⟨mods, seenr⟩ := r
              rw [hc] at h'
              have h'' : Except.ok (ε := String) (mods.insertionSort ModLE) =
                  Except.ok out := h'
              simp only [Except.ok.injEq] at h''
              rw [← h'']
              exact List.sorted_insertionSort ModLE mods
        · rw [if_neg hex] at h'
          exact Except.noConfusion h'
  · exact fun a b => IsTotal.total a b
  · exact fun a b c hab hbc => IsTrans.trans a b c hab hbc
  · intro a b h hc
    rw [show moduleOrderKey a = "" from by simp [moduleOrderKey, h]] at hc
    rw [String.lt_iff_toList_lt] at hc
    have hc' : (moduleOrderKey b).toList < ([] : List Char) := hc
    generalize hgen : (moduleOrderKey b).toList = l at hc'
    cases hc'

/-- The crate refuting the dotted-key reading of the ordering: a root
declaring `pub mod a9;` and `pub mod a;`, where `a.rs` declares
`pub mod b;`. -/
def libItemsC1 : List Item :=
  [.modItem .publicVis "a9" none, .modItem .publicVis "a" none]

def aItemsC1 : List Item :=
  [.modItem .publicVis "b" none]

def fsC1 : FS :=
  { entries :=
      [ (["crate", "src", "lib.rs"], libItemsC1)
      , (["crate", "src", "a9.rs"], [])
      , (["crate", "src", "a.rs"], aItemsC1)
      , (["crate", "src", "a", "b.rs"], []) ]
    aliases := [] }

set_option maxRecDepth 400000 in
/-- **C1** (counterexample): on `fsC1` the run succeeds with module parts
`[], [a], [a9], [a, b]` in that order, and that output is NOT sorted by
the dotted string form of the path segments — the dotted key of
`[a, b]` (namely `a.b`) orders strictly before the dotted key of `[a9]`,
while the `::`-joined keys order the other way. -/
theorem extract_modules_not_sorted_by_dotted_key :
    (extractModules fsC1 20 ["crate", "Cargo.toml"]).map
        (fun ms => ms.map (fun m => m.parts)) =
      .ok [[], ["a"], ["a9"], ["a", "b"]] ∧
    (extractModules fsC1 20 ["crate", "Cargo.toml"]).map
        (fun ms => decide (ms.Sorted SpecDottedLE)) = .ok false ∧
    (extractModules fsC1 20 ["crate", "Cargo.toml"]).map
        (fun ms => decide (ms.Sorted ModLE)) = .ok true := by
  refine ⟨?_, ?_, ?_⟩ <;> decide

/-! ### Concrete witnesses -/

instance (fs : FS) : Decidable fs.Wf :=
  inferInstanceAs (Decidable (List.Nodup (List.map (fun e => pathToString (Prod.fst e))
    fs.entries)))

/-- The sorted output of the `fsC1` run. -/
def outC1 : List ExtractModule :=
  [emptyModule "crate/src/lib.rs" [], emptyModule "crate/src/a.rs" ["a"],
   emptyModule "crate/src/a9.rs" ["a9"], emptyModule "crate/src/a/b.rs" ["a", "b"]]

set_option maxRecDepth 400000 in
/-- Witness for the amended C1 theorem at the concrete crate `fsC1`. -/
theorem extract_modules_sorted_by_joined_key_witness :
    extractModules fsC1 20 ["crate", "Cargo.toml"] = .ok outC1 ∧
    outC1.Sorted ModLE ∧
    ¬ moduleOrderKey (emptyModule "crate/src/a.rs" ["a"]) <
        moduleOrderKey (emptyModule "crate/src/lib.rs" []) := by
  have hrun : extractModules fsC1 20 ["crate", "Cargo.toml"] = .ok outC1 := by decide
  exact ⟨hrun,
    extract_modules_sorted_by_joined_key.1 fsC1 20 ["crate", "Cargo.toml"] outC1 hrun,
    extract_modules_sorted_by_joined_key.2.2.2.1 (emptyModule "crate/src/lib.rs" [])
      (emptyModule "crate/src/a.rs" ["a"]) rfl⟩

/-- The crate for the C2 witness: `lib.rs` declares `pub mod x;` and
`pub mod y;`, and `y.rs` is an alias (say, a symlink) of `x.rs`. -/
def libItemsW : List Item := [.modItem .publicVis "x" none, .modItem .publicVis "y" none]

def fsW : FS :=
  { entries := [(["c", "src", "lib.rs"], libItemsW), (["c", "src", "x.rs"], [])]
    aliases := [(["c", "src", "y.rs"], ["c", "src", "x.rs"])] }

def outW : List ExtractModule :=
  [emptyModule "c/src/x.rs" ["x"], emptyModule "c/src/lib.rs" []]

set_option maxRecDepth 400000 in
/-- Witness for C2 at `fsW`: the two spellings of the shared file give
identical runs, the revisit short-circuits, and the full run from the root
visits `x.rs` once, with its record appearing once. -/
theorem collect_module_file_visits_once_witness :
    (collectModuleFile fsW 5 ["c", "src", "x.rs"] ["m"] [] [] =
        collectModuleFile fsW 5 ["c", "src", "y.rs"] ["m"] [] []) ∧
    (collectModuleFile fsW 5 ["c", "src", "y.rs"] ["m"] []
        [["c", "src", "x.rs"]] = .ok ([], [["c", "src", "x.rs"]])) ∧
    (∃ new log, outW = [] ++ new ∧
        LogOk fsW [] [["c", "src", "x.rs"], ["c", "src", "lib.rs"]] log ∧
        (∀ cq, cq ∈ log → visitRecordCount new cq.1 cq.2 = 1) ∧
        (∀ r, r ∈ new → LogOrigin log r)) := by
  refine ⟨?_, ?_, ?_⟩
  · exact collect_module_file_visits_once.1 fsW 5 ["c", "src", "x.rs"]
      ["c", "src", "y.rs"] ["c", "src", "x.rs"] ["m"] [] [] (by decide) (by decide)
  · exact collect_module_file_visits_once.2.1 fsW 4 ["c", "src", "y.rs"]
      ["c", "src", "x.rs"] ["m"] [] [["c", "src", "x.rs"]] (by decide) (by decide)
  · exact collect_module_file_visits_once.2.2 fsW 10 ["c", "src", "lib.rs"] [] [] []
      outW [["c", "src", "x.rs"], ["c", "src", "lib.rs"]] (by decide) (by decide)

/-- The crate for the C3 witness: resolvable sibling and subdirectory
modules plus one unresolvable declaration in the root. -/
def libItems3 : List Item := [.modItem .publicVis "zzz" none]

def fs3 : FS :=
  { entries := [(["r", "src", "lib.rs"], libItems3), (["r", "src", "m.rs"], []),
      (["r", "src", "n", "mod.rs"], [])]
    aliases := [] }

/-- Witness for C3 at `fs3`. -/
theorem resolve_child_module_order_and_fatal_witness :
    resolveChildModuleFile fs3 ["r", "src"] "m" = .ok ["r", "src", "m.rs"] ∧
    resolveChildModuleFile fs3 ["r", "src"] "n" = .ok ["r", "src", "n", "mod.rs"] ∧
    (∃ e, resolveChildModuleFile fs3 ["r", "src"] "zzz" = .error e) ∧
    (∃ e', collectModuleItems fs3 5 "r/src/lib.rs" [] ["r", "src"] libItems3 [] [] =
        .error e') ∧
    (∃ e', collectModuleFile fs3 5 ["r", "src", "lib.rs"] [] [] [] = .error e') := by
  refine ⟨?_, ?_, ?_, ?_, ?_⟩
  · exact resolve_child_module_order_and_fatal.1 fs3 ["r", "src"] "m" (by decide)
  · exact resolve_child_module_order_and_fatal.2.1 fs3 ["r", "src"] "n"
      (by decide) (by decide)
  · exact resolve_child_module_order_and_fatal.2.2.1 fs3 ["r", "src"] "zzz"
      (by decide) (by decide)
  · exact resolve_child_module_order_and_fatal.2.2.2.1 fs3 5 "r/src/lib.rs" []
      ["r", "src"] libItems3 [] [] .publicVis "zzz"
      ("Could not resolve pub mod zzz from base directory r/src.")
      (List.mem_cons_self _ _) rfl (by decide)
  · exact resolve_child_module_order_and_fatal.2.2.2.2 fs3 5 ["r", "src", "lib.rs"]
      [] [] [] ["r", "src", "lib.rs"] libItems3 .publicVis "zzz"
      ("Could not resolve pub mod zzz from base directory r/src.")
      (by decide) (by decide) rfl (List.mem_cons_self _ _) rfl (by decide)

/-- A private constant, for the C4 witness. -/
def privConst : Item := .constItem .inheritedVis "C" (.path ["i32"])

/-- Witness for C4: a private item at the head of the item list is skipped
with the whole loop state untouched. -/
theorem private_items_skipped_witness :
    collectItemsGo fsC1 4 "f" [] ["b"] [privConst] (emptyModule "f" []) [] [] =
      collectItemsGo fsC1 3 "f" [] ["b"] [] (emptyModule "f" []) [] [] :=
  private_items_skipped.1 fsC1 3 "f" [] ["b"] privConst [] (emptyModule "f" []) [] []
    (by decide)

/-- Witness for C5: a unit struct with a plain type parameter emits no
diagnostic at all; a tuple struct emits zero fields plus one `struct`
Issue. -/
theorem parse_struct_fields_and_issues_witness :
    (parseStruct "S" [.typeParam "T"] .unit "f").2 = [] ∧
    (parseStruct "S" [] .unnamed "f").1.fields = [] ∧
    ((parseStruct "S" [] .unnamed "f").2.countP (fun i => i.kind == "struct")) = 1 := by
  refine ⟨?_, ?_, ?_⟩
  · exact (parse_struct_fields_and_issues.2.2 "S" [.typeParam "T"] "f").2.2 (by decide)
  · exact (parse_struct_fields_and_issues.2.1 "S" [] "f").1
  · exact (parse_struct_fields_and_issues.2.1 "S" [] "f").2

/-- A signature with one lifetime parameter and one type parameter, for
the C7 witness. -/
def sigC7 : Signature :=
  { ident := "f", generics := [.lifetimeParam "a", .typeParam "T"], inputs := [],
    output := .default }

/-- Witness for C7. -/
theorem parse_type_params_drop_lifetime_const_witness :
    (parseSignature sigC7 "file").1.type_params = ["T"] ∧
    ((parseSignature sigC7 "file").2.countP (fun i => i.kind == "generic")) = 1 :=
  parse_type_params_drop_lifetime_const.2.2.2 sigC7 "file" "a" "T" rfl

/-- Inputs for the C8 witness: two identical inherent blocks for target
`P`, a trait-implementing block, and a block with one private method. -/
def sigM1 : Signature := { ident := "m1", generics := [], inputs := [], output := .default }

def implD1 : ItemImplData :=
  { isTraitImpl := false, selfTy := .path ["P"], items := [.fnImpl .publicVis sigM1] }

def implDT : ItemImplData :=
  { isTraitImpl := true, selfTy := .path ["P"], items := [.fnImpl .publicVis sigM1] }

def implD0 : ItemImplData :=
  { isTraitImpl := false, selfTy := .path ["P"], items := [.fnImpl .inheritedVis sigM1] }

def itemsC8 : List Item := [.implItem implD1, .implItem implD1]

def pendingP : PendingMethods :=
  { target := "P",
    methods := [{ name := "m1", type_params := [], params := [], return_type := "()" }] }

set_option maxRecDepth 400000 in
/-- Witness for C8: the trait impl and the zero-public-method block yield
no entry, the eligible block yields one entry, and the module built from
two same-target blocks keeps two separate entries. -/
theorem impl_blocks_pending_entries_witness :
    parseImpl implDT "f" = (none, []) ∧
    (parseImpl implD0 "f").1 = none ∧
    (parseImpl implD1 "f").1 =
      some { target := "P", methods := (implMethods "f" implD1.items).1 } ∧
    (∃ mid m, ([{ emptyModule "f" [] with pending_methods := [pendingP, pendingP] }] :
          List ExtractModule) = [] ++ mid ++ [m] ∧
        m.pending_methods.length = (itemsC8.filterMap (implEntry "f")).length ∧
        ∀ T, m.pending_methods.countP (fun p => p.target == T) =
          (itemsC8.filterMap (implEntry "f")).countP (fun p => p.target == T)) ∧
    ((itemsC8.filterMap (implEntry "f")).countP (fun p => p.target == "P")) = 2 := by
  refine ⟨?_, ?_, ?_, ?_, ?_⟩
  · exact impl_blocks_pending_entries.1 implDT "f" rfl
  · exact impl_blocks_pending_entries.2.1 implD0 "f" (by decide)
  · exact impl_blocks_pending_entries.2.2.1 implD1 "f" ["P"] "P" rfl rfl rfl (by decide)
  · exact impl_blocks_pending_entries.2.2.2 fsC1 6 "f" [] ["b"] itemsC8 [] []
      [{ emptyModule "f" [] with pending_methods := [pendingP, pendingP] }] []
      (by decide)
  · decide

/-- Trait items with one associated type and one method, for the C9
witness. -/
def sigM2 : Signature := { ident := "meth", generics := [], inputs := [], output := .default }

def itemsC9 : List TraitItemK := [.typeItem "A", .fnItem sigM2]

/-- Witness for C9: the associated type's name appears exactly once. -/
theorem parse_trait_assoc_types_dedup_witness :
    (parseTrait "Tr" [] [] itemsC9 "f").1.type_params.Nodup ∧
    (parseTrait "Tr" [] [] itemsC9 "f").1.type_params.count "A" = 1 := by
  have h := (parse_trait_assoc_types_dedup "Tr" [] [] itemsC9 "f").2.2 (by decide)
  exact ⟨h.1, h.2 "A" (by decide)⟩

/-- One public inline module, for the C10 witness. -/
def itemsC10 : List Item := [.modItem .publicVis "inner" (some [])]

set_option maxRecDepth 400000 in
/-- Witness for C10: the run on one inline module emits two records with
the same file label and different parts. -/
theorem inline_modules_same_file_records_witness :
    (∃ r, r ∈ ([emptyModule "f" ["inner"], emptyModule "f" []] : List ExtractModule) ∧
        r.file = "f" ∧ r.parts = []) ∧
    (∃ r, r ∈ ([emptyModule "f" ["inner"], emptyModule "f" []] : List ExtractModule) ∧
        r.file = "f" ∧ r.parts = [] ++ ["inner"]) := by
  have h := inline_modules_same_file_records fsC1 6 "f" [] ["b"] itemsC10 [] []
    [emptyModule "f" ["inner"], emptyModule "f" []] [] (by decide)
  exact ⟨h.1, h.2 .publicVis "inner" [] (List.mem_cons_self _ _) rfl⟩

end RustExtractor
